import Mathlib

/-!
Verification of the terraprint3d mesh-generation core against its
natural-language specification.

The Python sources under `terraprint3d/` are shallowly embedded here:
grids become functions `ℕ → ℕ → ℚ` together with explicit row/column
counts, numpy arrays of vertices and faces become Lean lists, and the
floating-point arithmetic of the source is modelled over `ℚ`.
-/

namespace Terraprint

/-- A 3D vertex `[x, y, z]` (millimetres), as appended to the `vertices`
list by the Python code. -/
abbrev Vert := ℚ × ℚ × ℚ

/-- A triangular face `[v1, v2, v3]` of vertex indices. -/
abbrev Face := ℕ × ℕ × ℕ

/-! ## `MeshGenerator._create_surface_mesh` (generator.py lines 111-137) -/

/-- The vertex list built by `_create_surface_mesh`: one vertex per grid
cell, row-major (`for i in range(rows): for j in range(cols)`). -/
def surfaceVertices (rows cols : ℕ) (x y z : ℕ → ℕ → ℚ) : List Vert :=
  (List.range rows).flatMap fun i =>
    (List.range cols).map fun j => (x i j, y i j, z i j)

/-- The face list built by `_create_surface_mesh`: for each interior quad
`(i, j)` the two triangles `[v1, v2, v3]` and `[v2, v4, v3]` with
`v1 = i*cols + j`, `v2 = i*cols + (j+1)`, `v3 = (i+1)*cols + j`,
`v4 = (i+1)*cols + (j+1)`. -/
def surfaceFaces (rows cols : ℕ) : List Face :=
  (List.range (rows - 1)).flatMap fun i =>
    (List.range (cols - 1)).flatMap fun j =>
      [(i * cols + j, i * cols + (j + 1), (i + 1) * cols + j),
       (i * cols + (j + 1), (i + 1) * cols + (j + 1), (i + 1) * cols + j)]

lemma sum_map_range (n : ℕ) (f : ℕ → ℕ) :
    ((List.range n).map f).sum = ∑ i in Finset.range n, f i := by
  induction n with
  | zero => simp
  | succ n ih => simp [List.range_succ, Finset.sum_range_succ, ih]

lemma count_flatMap_range {α : Type} [BEq α] (n : ℕ) (f : ℕ → List α) (a : α) :
    ((List.range n).flatMap f).count a = ∑ i in Finset.range n, (f i).count a := by
  induction n with
  | zero => simp
  | succ n ih => simp [List.range_succ, List.count_append, Finset.sum_range_succ, ih]

lemma length_flatMap_range {α : Type} (n : ℕ) (f : ℕ → List α) :
    ((List.range n).flatMap f).length = ∑ i in Finset.range n, (f i).length := by
  induction n with
  | zero => simp
  | succ n ih => simp [List.range_succ, Finset.sum_range_succ, ih]

/-- Row-major index bound: a cell `(i, j)` of an `r × c` grid has index
`i*c + j < r*c`. -/
lemma rowcol_lt {r c i j : ℕ} (hi : i < r) (hj : j < c) : i * c + j < r * c :=
  calc i * c + j < i * c + c := by omega
  _ = (i + 1) * c := by ring
  _ ≤ r * c := Nat.mul_le_mul_right c (by omega)

/-- Row-major indexing is injective on cells: if `i*c + j = i'*c + j'`
with `j, j' < c` then `i = i'` and `j = j'`. -/
lemma rowcol_inj {c i j i' j' : ℕ} (hj : j < c) (hj' : j' < c)
    (h : i * c + j = i' * c + j') : i = i' ∧ j = j' := by
  rcases Nat.lt_trichotomy i i' with hlt | heq | hgt
  · exfalso
    have : (i + 1) * c ≤ i' * c := Nat.mul_le_mul_right c (by omega)
    have : i * c + c ≤ i' * c := by nlinarith
    omega
  · constructor
    · exact heq
    · subst heq; omega
  · exfalso
    have : (i' + 1) * c ≤ i * c := Nat.mul_le_mul_right c (by omega)
    have : i' * c + c ≤ i * c := by nlinarith
    omega

/-- **C2.** For every metric grid with `rows ≥ 2` and `cols ≥ 2`,
`_create_surface_mesh` outputs exactly `2*(rows-1)*(cols-1)` triangular
faces, and every face consists of 3 pairwise-distinct vertex indices,
each a valid row-major index in `[0, rows*cols - 1]`. -/
theorem surface_mesh_face_count_and_validity (r c : ℕ) (hr : 2 ≤ r) (hc : 2 ≤ c) :
    (surfaceFaces r c).length = 2 * (r - 1) * (c - 1) ∧
    ∀ F ∈ surfaceFaces r c,
      (F.1 ≠ F.2.1 ∧ F.2.1 ≠ F.2.2 ∧ F.1 ≠ F.2.2) ∧
      (F.1 < r * c ∧ F.2.1 < r * c ∧ F.2.2 < r * c) := by
  constructor
  · rw [surfaceFaces, length_flatMap_range]
    have h1 : ∀ i ∈ Finset.range (r - 1),
        (((List.range (c - 1)).flatMap fun j =>
          ([(i * c + j, i * c + (j + 1), (i + 1) * c + j),
            (i * c + (j + 1), (i + 1) * c + (j + 1), (i + 1) * c + j)] :
              List Face)).length) = 2 * (c - 1) := by
      intro i _
      rw [length_flatMap_range]
      have h2 : ∀ j ∈ Finset.range (c - 1),
          (([(i * c + j, i * c + (j + 1), (i + 1) * c + j),
             (i * c + (j + 1), (i + 1) * c + (j + 1), (i + 1) * c + j)] :
               List Face)).length = 2 := fun j _ => rfl
      rw [Finset.sum_congr rfl h2]
      simp [Finset.sum_const, Finset.card_range, Nat.mul_comm]
    rw [Finset.sum_congr rfl h1]
    simp [Finset.sum_const, Finset.card_range]
    ring
  · intro F hF
    rw [surfaceFaces, List.mem_flatMap] at hF
    obtain ⟨i, hi, hF⟩ := hF
    rw [List.mem_flatMap] at hF
    obtain ⟨j, hj, hF⟩ := hF
    rw [List.mem_range] at hi hj
    have hic : i + 1 < r := by omega
    have hjc : j + 1 < c := by omega
    have hb1 : i * c + j < r * c := rowcol_lt (by omega) (by omega)
    have hb2 : i * c + (j + 1) < r * c := rowcol_lt (by omega) hjc
    have hb3 : (i + 1) * c + j < r * c := rowcol_lt hic (by omega)
    have hb4 : (i + 1) * c + (j + 1) < r * c := rowcol_lt hic hjc
    have hne12 : i * c + j ≠ i * c + (j + 1) := by
      intro h; exact absurd (rowcol_inj (by omega) hjc h).2 (by omega)
    have hne13 : i * c + j ≠ (i + 1) * c + j := by
      intro h; exact absurd (rowcol_inj (by omega) (by omega) h).1 (by omega)
    have hne23 : i * c + (j + 1) ≠ (i + 1) * c + j := by
      intro h; exact absurd (rowcol_inj hjc (by omega) h).2 (by omega)
    have hne24 : i * c + (j + 1) ≠ (i + 1) * c + (j + 1) := by
      intro h; exact absurd (rowcol_inj hjc hjc h).1 (by omega)
    have hne43 : (i + 1) * c + (j + 1) ≠ (i + 1) * c + j := by
      intro h; exact absurd (rowcol_inj hjc (by omega) h).2 (by omega)
    simp only [List.mem_cons, List.not_mem_nil, or_false] at hF
    rcases hF with hF | hF
    · rw [hF]; exact ⟨⟨hne12, hne23, hne13⟩, hb1, hb2, hb3⟩
    · rw [hF]; exact ⟨⟨hne24, hne43, hne23⟩, hb2, hb4, hb3⟩

/-- Witness for C2 at `r = c = 2`. -/
theorem surface_mesh_face_count_and_validity_witness :
    (surfaceFaces 2 2).length = 2 * (2 - 1) * (2 - 1) ∧
    ∀ F ∈ surfaceFaces 2 2,
      (F.1 ≠ F.2.1 ∧ F.2.1 ≠ F.2.2 ∧ F.1 ≠ F.2.2) ∧
      (F.1 < 2 * 2 ∧ F.2.1 < 2 * 2 ∧ F.2.2 < 2 * 2) :=
  surface_mesh_face_count_and_validity 2 2 (by decide) (by decide)

/-! ## Grid minima and maxima (`np.min` / `np.max` / `np.nanmin` / `np.nanmax`)

On the rational (NaN-free) domain of this embedding, `np.nanmin` and
`np.min` agree, so a single pair of helpers models all four numpy calls. -/

/-- The flattened (row-major) list of values of a `rows × cols` grid. -/
def gridValues (rows cols : ℕ) (g : ℕ → ℕ → ℚ) : List ℚ :=
  (List.range rows).flatMap fun i => (List.range cols).map fun j => g i j

/-- `np.min` of a grid (junk value `0` on an empty grid, where numpy raises). -/
def gridMin (rows cols : ℕ) (g : ℕ → ℕ → ℚ) : ℚ :=
  match (gridValues rows cols g).min? with
  | some m => m
  | none => 0

/-- `np.max` of a grid (junk value `0` on an empty grid, where numpy raises). -/
def gridMax (rows cols : ℕ) (g : ℕ → ℕ → ℚ) : ℚ :=
  match (gridValues rows cols g).max? with
  | some m => m
  | none => 0

/-! ## Color zones

`SimpleMultiColorMeshGenerator._calculate_color_zones`
(simple_multicolor.py lines 42-60) and
`MultiColorMeshGenerator._calculate_color_zones` (multicolor.py lines
88-123, `color_mode == "elevation"` branch). Both compute the grid
min/max and then build the zone list from them; the list-building part is
factored here over the computed `min`/`max`. -/

/-- Zone list of `simple_multicolor._calculate_color_zones`, as a function
of the computed `min_z`/`max_z`: a base zone `(min_z, max_z)` followed by
`num_colors` equal bands with no epsilon expansion. -/
def simpleColorZones (minZ maxZ : ℚ) (numColors : ℕ) : List (ℚ × ℚ) :=
  let zoneHeight := (maxZ - minZ) / numColors
  (minZ, maxZ) ::
    (List.range numColors).map fun (i : ℕ) =>
      (minZ + (i : ℚ) * zoneHeight, minZ + ((i : ℚ) + 1) * zoneHeight)

/-- `simple_multicolor._calculate_color_zones` proper: computes
`np.nanmin`/`np.nanmax` of the grid, then builds the zone list. -/
def simpleCalculateColorZones (rows cols : ℕ) (zGrid : ℕ → ℕ → ℚ)
    (numColors : ℕ) : List (ℚ × ℚ) :=
  simpleColorZones (gridMin rows cols zGrid) (gridMax rows cols zGrid) numColors

/-- Zone list of `multicolor._calculate_color_zones` (elevation mode), as a
function of the computed `min_elev`/`max_elev`: a base zone
`(min-1, max+1)`, then `num_colors` bands where each band after the first
is lowered by `0.001`, the last band's top is `max_elev + 1.0`, and every
other band's top is raised by `0.001`. -/
def multiColorZones (minE maxE : ℚ) (numColors : ℕ) : List (ℚ × ℚ) :=
  let zoneHeight := (maxE - minE) / numColors
  (minE - 1, maxE + 1) ::
    (List.range numColors).map fun (i : ℕ) =>
      let zoneMin0 := minE + (i : ℚ) * zoneHeight
      let zoneMax0 := minE + ((i : ℚ) + 1) * zoneHeight
      let zoneMin := if 0 < i then zoneMin0 - 1 / 1000 else zoneMin0
      let zoneMax := if i = numColors - 1 then maxE + 1 else zoneMax0 + 1 / 1000
      (zoneMin, zoneMax)

/-- `multicolor._calculate_color_zones` proper (elevation mode). -/
def multiCalculateColorZones (rows cols : ℕ) (zGrid : ℕ → ℕ → ℚ)
    (numColors : ℕ) : List (ℚ × ℚ) :=
  multiColorZones (gridMin rows cols zGrid) (gridMax rows cols zGrid) numColors

/-- A zone `(zone_min, zone_max)` contains an elevation (the
`zone_min <= elevation <= zone_max` test of the source). -/
def zoneContains (z : ℚ × ℚ) (e : ℚ) : Prop := z.1 ≤ e ∧ e ≤ z.2

instance (z : ℚ × ℚ) (e : ℚ) : Decidable (zoneContains z e) := by
  unfold zoneContains; infer_instance

lemma getD_map_range {α : Type} {N k : ℕ} (hk : k < N) (f : ℕ → α) (d : α) :
    ((List.range N).map f).getD k d = f k := by
  rw [List.getD_eq_getElem _ d (by simpa using hk)]
  simp

/-- `simpleColorZones` zone `k+1` (color band `k`, 0-based) spelled out. -/
lemma simpleColorZones_getD (m M : ℚ) (N k : ℕ) (hk : k < N) :
    (simpleColorZones m M N).getD (k + 1) (0, 0) =
      (m + (k : ℚ) * ((M - m) / (N : ℚ)), m + ((k : ℚ) + 1) * ((M - m) / (N : ℚ))) := by
  unfold simpleColorZones
  rw [List.getD_cons_succ, getD_map_range hk]

/-- `multiColorZones` zone `k+1` (color band `k`, 0-based) spelled out. -/
lemma multiColorZones_getD (m M : ℚ) (N k : ℕ) (hk : k < N) :
    (multiColorZones m M N).getD (k + 1) (0, 0) =
      ((if 0 < k then m + (k : ℚ) * ((M - m) / (N : ℚ)) - 1 / 1000
        else m + (k : ℚ) * ((M - m) / (N : ℚ))),
       (if k = N - 1 then M + 1
        else m + ((k : ℚ) + 1) * ((M - m) / (N : ℚ)) + 1 / 1000)) := by
  unfold multiColorZones
  rw [List.getD_cons_succ, getD_map_range hk]

/-- **C4 (counterexample).** On the 1×2 grid with values `0, 2` and
`num_colors = 2`: in the `simple_multicolor` version the adjacent color
bands `(0,1)` and `(1,2)` meet in the single point `1` — they do *not*
overlap by a positive epsilon — and in the `multicolor` version the two
color bands `(0, 1.001)` and `(0.999, 3)` do *not* have equal height. -/
theorem calculate_color_zones_counterexample :
    (¬ ((simpleCalculateColorZones 1 2 (fun _ j => (2 * j : ℚ)) 2).getD 2 (0, 0)).1
        < ((simpleCalculateColorZones 1 2 (fun _ j => (2 * j : ℚ)) 2).getD 1 (0, 0)).2) ∧
    (((multiCalculateColorZones 1 2 (fun _ j => (2 * j : ℚ)) 2).getD 1 (0, 0)).2
        - ((multiCalculateColorZones 1 2 (fun _ j => (2 * j : ℚ)) 2).getD 1 (0, 0)).1
      ≠ ((multiCalculateColorZones 1 2 (fun _ j => (2 * j : ℚ)) 2).getD 2 (0, 0)).2
        - ((multiCalculateColorZones 1 2 (fun _ j => (2 * j : ℚ)) 2).getD 2 (0, 0)).1) := by
  constructor
  · norm_num [simpleCalculateColorZones, simpleColorZones,
      gridMin, gridMax, gridValues, List.range_succ, List.min?, List.max?]
  · norm_num [multiCalculateColorZones, multiColorZones,
      gridMin, gridMax, gridValues, List.range_succ, List.min?, List.max?]

/-- **C4 (amended).** For every `N ∈ [1,6]` and every finite elevation
range `[m, M]`, both `_calculate_color_zones` variants produce color bands
`1..N` whose union covers `[m, M]` (every `x ∈ [m, M]` lies in some band);
in the `simple_multicolor` variant the bands have exactly equal height
`(M-m)/N` and adjacent bands share exactly their common endpoint (no
epsilon expansion), while in the `multicolor` variant adjacent bands
overlap in an interval of positive width. -/
theorem color_zones_cover (N : ℕ) (hN1 : 1 ≤ N) (hN6 : N ≤ 6) (m M x : ℚ)
    (hmM : m ≤ M) (hx1 : m ≤ x) (hx2 : x ≤ M) :
    (∃ k, 1 ≤ k ∧ k ≤ N ∧ zoneContains ((simpleColorZones m M N).getD k (0, 0)) x) ∧
    (∃ k, 1 ≤ k ∧ k ≤ N ∧ zoneContains ((multiColorZones m M N).getD k (0, 0)) x) ∧
    (∀ k, 1 ≤ k → k ≤ N →
      ((simpleColorZones m M N).getD k (0, 0)).2
        - ((simpleColorZones m M N).getD k (0, 0)).1 = (M - m) / (N : ℚ)) ∧
    (∀ k, 1 ≤ k → k < N →
      ((simpleColorZones m M N).getD (k + 1) (0, 0)).1
        = ((simpleColorZones m M N).getD k (0, 0)).2) ∧
    (∀ k, 1 ≤ k → k < N →
      ((multiColorZones m M N).getD (k + 1) (0, 0)).1
        < ((multiColorZones m M N).getD k (0, 0)).2) := by
  have hN0 : (0 : ℚ) < (N : ℚ) := by exact_mod_cast hN1
  set h : ℚ := (M - m) / (N : ℚ) with hh
  have hhnn : 0 ≤ h := by
    apply div_nonneg (by linarith) (le_of_lt hN0)
  have hNh : (N : ℚ) * h = M - m := by
    rw [hh, mul_div_cancel₀]
    exact ne_of_gt hN0
  -- a color band of the simple variant containing x
  have hsimple : ∃ k, k < N ∧
      m + (k : ℚ) * h ≤ x ∧ x ≤ m + ((k : ℚ) + 1) * h := by
    rcases eq_or_lt_of_le hhnn with hz | hpos
    · refine ⟨0, by omega, ?_, ?_⟩
      · simpa [← hz] using hx1
      · have hxM : x ≤ m := by
          have : M - m ≤ 0 := by
            by_contra hcon
            push_neg at hcon
            have : 0 < h := by positivity
            linarith [hz]
          linarith
        simp only [Nat.cast_zero, zero_add, one_mul]
        linarith
    · set t : ℕ := ⌊(x - m) / h⌋₊ with ht
      by_cases htN : t < N
      · refine ⟨t, htN, ?_, ?_⟩
        · have h1 : (t : ℚ) ≤ (x - m) / h := by
            rw [ht]
            exact Nat.floor_le (div_nonneg (by linarith) (le_of_lt hpos))
          have h1' := (le_div_iff₀ hpos).mp h1
          linarith
        · have h2 : (x - m) / h < (t : ℚ) + 1 := by
            rw [ht]
            exact Nat.lt_floor_add_one _
          have h2' := (div_lt_iff₀ hpos).mp h2
          linarith
      · -- x must equal M; use the last band
        push_neg at htN
        refine ⟨N - 1, by omega, ?_, ?_⟩
        · have hcast : ((N - 1 : ℕ) : ℚ) = (N : ℚ) - 1 := by
            have : (1 : ℕ) ≤ N := hN1
            push_cast [Nat.cast_sub this]
            ring
          rw [hcast]
          have hNt : (N : ℚ) ≤ (t : ℚ) := by exact_mod_cast htN
          have h1 : (t : ℚ) ≤ (x - m) / h :=
            Nat.floor_le (div_nonneg (by linarith) (le_of_lt hpos))
          have h2 : (N : ℚ) ≤ (x - m) / h := le_trans hNt h1
          have h3 := (le_div_iff₀ hpos).mp h2
          have h4 : ((N : ℚ) - 1) * h = (N : ℚ) * h - h := by ring
          linarith
        · have hcast : ((N - 1 : ℕ) : ℚ) = (N : ℚ) - 1 := by
            have : (1 : ℕ) ≤ N := hN1
            push_cast [Nat.cast_sub this]
            ring
          rw [hcast]
          have : ((N : ℚ) - 1 + 1) * h = M - m := by
            rw [sub_add_cancel]
            exact hNh
          rw [this]
          linarith
  obtain ⟨k, hkN, hklo, hkhi⟩ := hsimple
  refine ⟨⟨k + 1, by omega, by omega, ?_⟩, ⟨k + 1, by omega, by omega, ?_⟩, ?_, ?_, ?_⟩
  · rw [simpleColorZones_getD m M N k hkN]
    exact ⟨hklo, hkhi⟩
  · rw [multiColorZones_getD m M N k hkN]
    constructor
    · by_cases h0 : 0 < k
      · simp only [h0, if_true]
        linarith
      · simp only [h0, if_false]
        exact hklo
    · by_cases hlast : k = N - 1
      · simp only [hlast, if_true]
        linarith
      · simp only [hlast, if_false]
        linarith
  · intro k' hk1 hkN'
    obtain ⟨k'', rfl⟩ : ∃ k'', k' = k'' + 1 := ⟨k' - 1, by omega⟩
    rw [simpleColorZones_getD m M N k'' (by omega)]
    ring
  · intro k' hk1 hkN'
    obtain ⟨k'', rfl⟩ : ∃ k'', k' = k'' + 1 := ⟨k' - 1, by omega⟩
    rw [simpleColorZones_getD m M N k'' (by omega),
        simpleColorZones_getD m M N (k'' + 1) (by omega)]
    push_cast
    ring
  · intro k' hk1 hkN'
    obtain ⟨k'', rfl⟩ : ∃ k'', k' = k'' + 1 := ⟨k' - 1, by omega⟩
    rw [multiColorZones_getD m M N k'' (by omega),
        multiColorZones_getD m M N (k'' + 1) (by omega)]
    have h1 : 0 < k'' + 1 := by omega
    have h2 : ¬ (k'' = N - 1) := by omega
    simp only [h1, if_true, h2, if_false]
    push_cast
    linarith
/-- Witness for C4 (amended) at `N = 2`, range `[0, 2]`, `x = 1`. -/
theorem color_zones_cover_witness :
    ((1 ≤ 2 ∧ 2 ≤ 6) ∧ (0 : ℚ) ≤ 2 ∧ (0 : ℚ) ≤ 1 ∧ (1 : ℚ) ≤ 2) ∧
    ((∃ k, 1 ≤ k ∧ k ≤ 2 ∧ zoneContains ((simpleColorZones 0 2 2).getD k (0, 0)) 1) ∧
     (∃ k, 1 ≤ k ∧ k ≤ 2 ∧ zoneContains ((multiColorZones 0 2 2).getD k (0, 0)) 1) ∧
     (∀ k, 1 ≤ k → k ≤ 2 →
       ((simpleColorZones 0 2 2).getD k (0, 0)).2
         - ((simpleColorZones 0 2 2).getD k (0, 0)).1 = (2 - 0) / ((2 : ℕ) : ℚ)) ∧
     (∀ k, 1 ≤ k → k < 2 →
       ((simpleColorZones 0 2 2).getD (k + 1) (0, 0)).1
         = ((simpleColorZones 0 2 2).getD k (0, 0)).2) ∧
     (∀ k, 1 ≤ k → k < 2 →
       ((multiColorZones 0 2 2).getD (k + 1) (0, 0)).1
         < ((multiColorZones 0 2 2).getD k (0, 0)).2)) :=
  ⟨⟨⟨by norm_num, by norm_num⟩, by norm_num, by norm_num, by norm_num⟩,
    color_zones_cover 2 (by norm_num) (by norm_num) 0 2 1
      (by norm_num) (by norm_num) (by norm_num)⟩
/-! ## Height stepping (`MultiColorMeshGenerator._apply_height_stepping`,
multicolor.py lines 63-86) -/

/-- `np.round`: round half to even (banker's rounding), on `ℚ`. -/
def roundHalfEven (q : ℚ) : ℤ :=
  if q - ⌊q⌋ < 1 / 2 then ⌊q⌋
  else if 1 / 2 < q - ⌊q⌋ then ⌊q⌋ + 1
  else if 2 ∣ ⌊q⌋ then ⌊q⌋ else ⌊q⌋ + 1

/-- `_apply_height_stepping`: `step = step_height_mm / vertical_exaggeration`;
the sharp branch sets every cell to
`round((e - min_elev) / step) * step + min_elev`; the smooth branch places
each cell lying in a `linspace` interval at that interval's midpoint and
leaves other cells unchanged. -/
def applyHeightStepping (stepHeightMM vexag : ℚ) (smooth : Bool)
    (rows cols : ℕ) (g : ℕ → ℕ → ℚ) : ℕ → ℕ → ℚ :=
  let step := stepHeightMM / vexag
  let minE := gridMin rows cols g
  let maxE := gridMax rows cols g
  if smooth then
    let numSteps := (⌊(maxE - minE) / step⌋).toNat + 1
    let levels : ℕ → ℚ := fun k =>
      if numSteps ≤ 1 then minE
      else minE + (k : ℚ) * ((maxE - minE) / ((numSteps : ℚ) - 1))
    fun i j =>
      match (List.range (numSteps - 1)).findIdx?
          (fun k => decide (levels k ≤ g i j) && decide (g i j < levels (k + 1))) with
      | some k => levels k + (levels (k + 1) - levels k) * (1 / 2)
      | none => g i j
  else
    fun i j => (roundHalfEven ((g i j - minE) / step) : ℚ) * step + minE
instance : Std.Antisymm (fun (a b : ℚ) => a ≤ b) := ⟨fun h₁ h₂ => le_antisymm h₁ h₂⟩

/-- Membership characterisation of grid values. -/
lemma mem_gridValues_iff {rows cols : ℕ} {g : ℕ → ℕ → ℚ} {v : ℚ} :
    v ∈ gridValues rows cols g ↔ ∃ i < rows, ∃ j < cols, v = g i j := by
  unfold gridValues
  simp only [List.mem_flatMap, List.mem_map, List.mem_range]
  constructor
  · rintro ⟨i, hi, j, hj, rfl⟩
    exact ⟨i, hi, j, hj, rfl⟩
  · rintro ⟨i, hi, j, hj, rfl⟩
    exact ⟨i, hi, j, hj, rfl⟩

/-- `gridMin` equals any value of the grid that is a lower bound. -/
lemma gridMin_eq {rows cols : ℕ} {g : ℕ → ℕ → ℚ} {m : ℚ}
    (hmem : m ∈ gridValues rows cols g)
    (hle : ∀ v ∈ gridValues rows cols g, m ≤ v) :
    gridMin rows cols g = m := by
  have h : (gridValues rows cols g).min? = some m := by
    rw [List.min?_eq_some_iff (fun a => le_refl a) (fun a b => min_choice a b)
      (fun a b c => le_min_iff)]
    exact ⟨hmem, hle⟩
  unfold gridMin
  rw [h]

/-- `gridMax` equals any value of the grid that is an upper bound. -/
lemma gridMax_eq {rows cols : ℕ} {g : ℕ → ℕ → ℚ} {m : ℚ}
    (hmem : m ∈ gridValues rows cols g)
    (hle : ∀ v ∈ gridValues rows cols g, v ≤ m) :
    gridMax rows cols g = m := by
  have h : (gridValues rows cols g).max? = some m := by
    rw [List.max?_eq_some_iff (fun a => le_refl a) (fun a b => max_choice a b)
      (fun a b c => max_le_iff)]
    exact ⟨hmem, hle⟩
  unfold gridMax
  rw [h]

/-- The minimum of the 20-sample ramp `0, 5, …, 95` is `0`. -/
lemma rampMin : gridMin 1 20 (fun _ j => (5 * j : ℚ)) = 0 := by
  apply gridMin_eq
  · rw [mem_gridValues_iff]
    exact ⟨0, by norm_num, 0, by norm_num, by norm_num⟩
  · intro v hv
    rw [mem_gridValues_iff] at hv
    obtain ⟨i, _, j, _, rfl⟩ := hv
    positivity
/-- The sharp (`smooth_transitions` disabled) branch of
`_apply_height_stepping`, spelled out. -/
lemma applyHeightStepping_sharp (stepMM vexag : ℚ) (rows cols : ℕ)
    (g : ℕ → ℕ → ℚ) (i j : ℕ) :
    applyHeightStepping stepMM vexag false rows cols g i j =
      (roundHalfEven ((g i j - gridMin rows cols g) / (stepMM / vexag)) : ℚ)
        * (stepMM / vexag) + gridMin rows cols g := rfl

/-- **C6 (counterexample).** On the ramp `0, 5, 10, …, 95` (a 1×20 grid,
`step_height = 10`, `vertical_exaggeration = 1`, sharp stepping): the cell
with elevation `15` is output as `20`, whereas flooring to a multiple of
the step height would give `10`; and the eleven ramp cells listed produce
the eleven pairwise-distinct output levels `0, 10, …, 100`, so the ramp
yields 11 distinct output elevation levels, not 10. -/
theorem height_stepping_counterexample :
    applyHeightStepping 10 1 false 1 20 (fun _ j => (5 * j : ℚ)) 0 3 = 20 ∧
    ((⌊(5 * 3 : ℚ) / 10⌋ * 10 : ℚ) = 10 ∧ (20 : ℚ) ≠ 10) ∧
    ([0, 2, 3, 6, 7, 10, 11, 14, 15, 18, 19].map
        (fun j => applyHeightStepping 10 1 false 1 20 (fun _ j => (5 * j : ℚ)) 0 j))
      = [0, 10, 20, 30, 40, 50, 60, 70, 80, 90, 100] ∧
    ([0, 10, 20, 30, 40, 50, 60, 70, 80, 90, 100] : List ℚ).Nodup := by
  have e0 : applyHeightStepping 10 1 false 1 20 (fun _ j => (5 * j : ℚ)) 0 0 = 0 := by
    rw [applyHeightStepping_sharp, rampMin]
    norm_num [roundHalfEven, Int.dvd_iff_emod_eq_zero]
  have e2 : applyHeightStepping 10 1 false 1 20 (fun _ j => (5 * j : ℚ)) 0 2 = 10 := by
    rw [applyHeightStepping_sharp, rampMin]
    norm_num [roundHalfEven, Int.dvd_iff_emod_eq_zero]
  have e3 : applyHeightStepping 10 1 false 1 20 (fun _ j => (5 * j : ℚ)) 0 3 = 20 := by
    rw [applyHeightStepping_sharp, rampMin]
    norm_num [roundHalfEven, Int.dvd_iff_emod_eq_zero]
  have e6 : applyHeightStepping 10 1 false 1 20 (fun _ j => (5 * j : ℚ)) 0 6 = 30 := by
    rw [applyHeightStepping_sharp, rampMin]
    norm_num [roundHalfEven, Int.dvd_iff_emod_eq_zero]
  have e7 : applyHeightStepping 10 1 false 1 20 (fun _ j => (5 * j : ℚ)) 0 7 = 40 := by
    rw [applyHeightStepping_sharp, rampMin]
    norm_num [roundHalfEven, Int.dvd_iff_emod_eq_zero]
  have e10 : applyHeightStepping 10 1 false 1 20 (fun _ j => (5 * j : ℚ)) 0 10 = 50 := by
    rw [applyHeightStepping_sharp, rampMin]
    norm_num [roundHalfEven, Int.dvd_iff_emod_eq_zero]
  have e11 : applyHeightStepping 10 1 false 1 20 (fun _ j => (5 * j : ℚ)) 0 11 = 60 := by
    rw [applyHeightStepping_sharp, rampMin]
    norm_num [roundHalfEven, Int.dvd_iff_emod_eq_zero]
  have e14 : applyHeightStepping 10 1 false 1 20 (fun _ j => (5 * j : ℚ)) 0 14 = 70 := by
    rw [applyHeightStepping_sharp, rampMin]
    norm_num [roundHalfEven, Int.dvd_iff_emod_eq_zero]
  have e15 : applyHeightStepping 10 1 false 1 20 (fun _ j => (5 * j : ℚ)) 0 15 = 80 := by
    rw [applyHeightStepping_sharp, rampMin]
    norm_num [roundHalfEven, Int.dvd_iff_emod_eq_zero]
  have e18 : applyHeightStepping 10 1 false 1 20 (fun _ j => (5 * j : ℚ)) 0 18 = 90 := by
    rw [applyHeightStepping_sharp, rampMin]
    norm_num [roundHalfEven, Int.dvd_iff_emod_eq_zero]
  have e19 : applyHeightStepping 10 1 false 1 20 (fun _ j => (5 * j : ℚ)) 0 19 = 100 := by
    rw [applyHeightStepping_sharp, rampMin]
    norm_num [roundHalfEven, Int.dvd_iff_emod_eq_zero]
  refine ⟨e3, ⟨by norm_num, by norm_num⟩, ?_, by norm_num⟩
  simp only [List.map_cons, List.map_nil, e0, e2, e3, e6, e7, e10, e11, e14, e15, e18, e19]
/-- `np.round` is within `1/2` of its argument. -/
lemma roundHalfEven_close (q : ℚ) : |(roundHalfEven q : ℚ) - q| ≤ 1 / 2 := by
  have hf1 : (⌊q⌋ : ℚ) ≤ q := Int.floor_le q
  have hf2 : q < (⌊q⌋ : ℚ) + 1 := Int.lt_floor_add_one q
  unfold roundHalfEven
  split_ifs with h1 h2 h3
  · rw [abs_le]; constructor <;> linarith
  · rw [abs_le]; push_cast; constructor <;> linarith
  · rw [abs_le]; constructor <;> linarith
  · rw [abs_le]; push_cast; constructor <;> linarith

/-- **C6 (amended).** Sharp height stepping quantizes each elevation by
*rounding* (numpy's half-to-even round, not flooring) to a multiple of the
step height `step_height_mm / vertical_exaggeration` above the grid
minimum; consequently every output differs from its input elevation by at
most half a step. -/
theorem sharp_stepping_quantizes (stepMM vexag : ℚ)
    (hs : 0 < stepMM / vexag) (rows cols : ℕ) (g : ℕ → ℕ → ℚ) (i j : ℕ) :
    (∃ k : ℤ, applyHeightStepping stepMM vexag false rows cols g i j
        = gridMin rows cols g + (k : ℚ) * (stepMM / vexag)) ∧
    |applyHeightStepping stepMM vexag false rows cols g i j - g i j|
        ≤ (stepMM / vexag) / 2 := by
  set s : ℚ := stepMM / vexag with hsdef
  set m : ℚ := gridMin rows cols g with hmdef
  set q : ℚ := (g i j - m) / s with hqdef
  have hout : applyHeightStepping stepMM vexag false rows cols g i j
      = (roundHalfEven q : ℚ) * s + m := by
    rw [applyHeightStepping_sharp]
  constructor
  · exact ⟨roundHalfEven q, by rw [hout]; ring⟩
  · rw [hout]
    have hq : q * s = g i j - m := div_mul_cancel₀ _ (ne_of_gt hs)
    have hclose := roundHalfEven_close q
    have : (roundHalfEven q : ℚ) * s + m - g i j
        = ((roundHalfEven q : ℚ) - q) * s := by
      rw [sub_mul, hq]; ring
    rw [this, abs_mul, abs_of_pos hs]
    calc |(roundHalfEven q : ℚ) - q| * s ≤ (1 / 2) * s := by
          exact mul_le_mul_of_nonneg_right hclose (le_of_lt hs)
    _ = s / 2 := by ring

/-- Witness for C6 (amended) at step 10, exaggeration 1, on the ramp grid. -/
theorem sharp_stepping_quantizes_witness :
    (0 : ℚ) < 10 / 1 ∧
    ((∃ k : ℤ, applyHeightStepping 10 1 false 1 20 (fun _ j => (5 * j : ℚ)) 0 3
        = gridMin 1 20 (fun _ j => (5 * j : ℚ)) + (k : ℚ) * (10 / 1)) ∧
     |applyHeightStepping 10 1 false 1 20 (fun _ j => (5 * j : ℚ)) 0 3 - (5 * 3 : ℚ)|
        ≤ (10 / 1) / 2) :=
  ⟨by norm_num, sharp_stepping_quantizes 10 1 (by norm_num) 1 20 _ 0 3⟩
/-! ## Zone assignment (`_assign_elevation_to_zone`,
simple_multicolor.py lines 62-77 and multicolor.py lines 310-336) -/

/-- Distance from an elevation to a zone's center,
`abs(elevation - (zone_min + zone_max) / 2)`. -/
def zoneDist (e : ℚ) (z : ℚ × ℚ) : ℚ := |e - (z.1 + z.2) / 2|

/-- `simple_multicolor._assign_elevation_to_zone`: skip the base zone,
return `idx + 1` for the first color zone containing the elevation, else
fall back to `distances.index(min(distances)) + 1` (nearest center, first
occurrence). The `none` case of the inner match is unreachable Python
(`min([])` raises); it returns the junk value 1. -/
def simpleAssignZone (elevation : ℚ) (zones : List (ℚ × ℚ)) : ℕ :=
  let colorZones := zones.drop 1
  match colorZones.findIdx?
      (fun z => decide (z.1 ≤ elevation) && decide (elevation ≤ z.2)) with
  | some idx => idx + 1
  | none =>
    let distances := colorZones.map (zoneDist elevation)
    match distances.min? with
    | some m => distances.indexOf m + 1
    | none => 1

/-- The body of the `min_distance` loop of
`multicolor._assign_elevation_to_zone`: state is
`(min_distance, best_zone)` with `none` standing for `float('inf')`. -/
def assignFoldStep (e : ℚ) (st : Option ℚ × ℕ) (p : ℕ × ℚ × ℚ) : Option ℚ × ℕ :=
  let d := zoneDist e p.2
  match st.1 with
  | none => (some d, p.1 + 1)
  | some md => if d < md then (some d, p.1 + 1) else st

/-- `multicolor._assign_elevation_to_zone`: identical first-match scan,
with the fallback written as an explicit
`for idx, ... in enumerate(color_zones)` strict-improvement loop starting
from `min_distance = inf`, `best_zone = 1`. -/
def multiAssignZone (elevation : ℚ) (allZones : List (ℚ × ℚ)) : ℕ :=
  let colorZones := allZones.drop 1
  match colorZones.findIdx?
      (fun z => decide (z.1 ≤ elevation) && decide (elevation ≤ z.2)) with
  | some idx => idx + 1
  | none =>
    (colorZones.enum.foldl (assignFoldStep elevation) ((none : Option ℚ), 1)).2

/-- Elements before the first occurrence of `a` differ from `a`. -/
lemma ne_of_lt_indexOf {α : Type} [DecidableEq α] {l : List α} {a : α} {j : ℕ}
    (hj : j < l.indexOf a) (hjl : j < l.length) : l.get ⟨j, hjl⟩ ≠ a := by
  induction l generalizing j with
  | nil => simp at hjl
  | cons b t ih =>
    by_cases hb : b = a
    · rw [List.indexOf_cons_eq _ hb] at hj
      omega
    · rw [List.indexOf_cons_ne _ hb] at hj
      cases j with
      | zero => simpa using hb
      | succ j' =>
        simp only [List.get_cons_succ]
        exact ih (by omega) (by simpa using hjl)


/-- Running the `min_distance` loop from an already-set state
`(some md, b)`: it returns the first strict improvement over `md`
(the first index achieving the minimum distance), or the unchanged state. -/
lemma assignFold_some (e : ℚ) :
    ∀ (t : List (ℚ × ℚ)) (i : ℕ) (md : ℚ) (b : ℕ),
      (List.enumFrom i t).foldl (assignFoldStep e) (some md, b) =
        match (t.map (zoneDist e)).min? with
        | none => (some md, b)
        | some m' =>
          if m' < md then (some m', i + (t.map (zoneDist e)).indexOf m' + 1)
          else (some md, b) := by
  intro t
  induction t with
  | nil => intro i md b; simp
  | cons z t' ih =>
    intro i md b
    simp only [List.enumFrom, List.foldl_cons, List.map_cons]
    show (List.enumFrom (i + 1) t').foldl (assignFoldStep e)
        (assignFoldStep e (some md, b) (i, z)) = _
    have hstep : assignFoldStep e (some md, b) (i, z) =
        if zoneDist e z < md then (some (zoneDist e z), i + 1) else (some md, b) := rfl
    by_cases hd : zoneDist e z < md
    · rw [hstep, if_pos hd, ih]
      cases hm : (t'.map (zoneDist e)).min? with
      | none =>
        rw [List.min?_eq_none_iff] at hm
        simp only [hm, List.map_nil, List.min?_cons, List.min?_nil, Option.elim_none]
        rw [if_pos hd, List.indexOf_cons_self]
      | some m'' =>
        simp only [List.min?_cons, hm, Option.elim_some]
        by_cases hmd : m'' < zoneDist e z
        · rw [if_pos hmd]
          have hmin : min (zoneDist e z) m'' = m'' := min_eq_right (le_of_lt hmd)
          rw [hmin, if_pos (lt_trans hmd hd),
            List.indexOf_cons_ne _ (by intro hcon; rw [hcon] at hmd; exact absurd hmd (lt_irrefl _))]
          rw [Prod.ext_iff]
          exact ⟨rfl, by omega⟩
        · rw [if_neg hmd]
          have hmin : min (zoneDist e z) m'' = zoneDist e z :=
            min_eq_left (le_of_not_lt hmd)
          rw [hmin, if_pos hd, List.indexOf_cons_self]
    · rw [hstep, if_neg hd, ih]
      cases hm : (t'.map (zoneDist e)).min? with
      | none =>
        rw [List.min?_eq_none_iff] at hm
        simp only [hm, List.map_nil, List.min?_cons, List.min?_nil, Option.elim_none]
        rw [if_neg hd]
      | some m'' =>
        simp only [List.min?_cons, hm, Option.elim_some]
        by_cases hmd : m'' < md
        · have hmz : m'' < zoneDist e z := lt_of_lt_of_le hmd (le_of_not_lt hd)
          have hmin : min (zoneDist e z) m'' = m'' := min_eq_right (le_of_lt hmz)
          rw [hmin,
            List.indexOf_cons_ne _ (by intro hcon; rw [hcon] at hmz; exact absurd hmz (lt_irrefl _)),
            if_pos hmd, if_pos hmd]
          rw [Prod.ext_iff]
          exact ⟨rfl, by omega⟩
        · have hnot : ¬ min (zoneDist e z) m'' < md := by
            rw [min_lt_iff]
            push_neg
            exact ⟨le_of_not_lt hd, le_of_not_lt hmd⟩
          rw [hnot |> if_neg, hmd |> if_neg]

/-- The fallback loop of `multicolor._assign_elevation_to_zone`, run from
its initial state, computes `distances.index(min(distances)) + 1`. -/
lemma assignFold_none (e : ℚ) (cz : List (ℚ × ℚ)) :
    ((cz.enum).foldl (assignFoldStep e) ((none : Option ℚ), 1)).2 =
      match (cz.map (zoneDist e)).min? with
      | some m => (cz.map (zoneDist e)).indexOf m + 1
      | none => 1 := by
  cases cz with
  | nil => simp
  | cons z t =>
    show ((List.enumFrom 0 (z :: t)).foldl (assignFoldStep e) (none, 1)).2 = _
    simp only [List.enumFrom, List.foldl_cons]
    have hstep : assignFoldStep e ((none : Option ℚ), 1) (0, z) =
        (some (zoneDist e z), 1) := rfl
    rw [hstep, assignFold_some]
    cases hm : (t.map (zoneDist e)).min? with
    | none =>
      rw [List.min?_eq_none_iff] at hm
      simp only [hm, List.map_cons, List.map_nil, List.min?_cons, List.min?_nil,
        Option.elim_none]
      rw [List.indexOf_cons_self]
    | some m'' =>
      simp only [List.map_cons, List.min?_cons, hm, Option.elim_some]
      by_cases hmd : m'' < zoneDist e z
      · have hmin : min (zoneDist e z) m'' = m'' := min_eq_right (le_of_lt hmd)
        rw [hmin, if_pos hmd,
          List.indexOf_cons_ne _ (by intro hcon; rw [hcon] at hmd; exact absurd hmd (lt_irrefl _))]
        show 0 + 1 + (t.map (zoneDist e)).indexOf m'' + 1
            = ((t.map (zoneDist e)).indexOf m'').succ + 1
        omega
      · have hmin : min (zoneDist e z) m'' = zoneDist e z :=
          min_eq_left (le_of_not_lt hmd)
        rw [hmin, if_neg hmd, List.indexOf_cons_self]

/-- The two `_assign_elevation_to_zone` implementations agree. -/
lemma multiAssignZone_eq_simple (e : ℚ) (zones : List (ℚ × ℚ)) :
    multiAssignZone e zones = simpleAssignZone e zones := by
  unfold multiAssignZone simpleAssignZone
  cases hf : (zones.drop 1).findIdx?
      (fun z => decide (z.1 ≤ e) && decide (e ≤ z.2)) with
  | some idx => simp only [hf]
  | none =>
    simp only [hf]
    exact assignFold_none e (zones.drop 1)
/-- **C3.** For every zone list built for `N ≥ 1` colors (base zone at
index 0, color zones `1..N`) and every elevation, both
`_assign_elevation_to_zone` implementations return the same band index
`k+1 ∈ [1, N]`: the lowest-indexed color band containing the value when
one contains it, and otherwise the band with the nearest center (the
lowest-indexed such band), so the function is total and deterministic. -/
theorem assign_zone_characterization (N : ℕ) (hN : 1 ≤ N)
    (zones : List (ℚ × ℚ)) (hlen : zones.length = N + 1) (e : ℚ) :
    ∃ k, k < N ∧
      simpleAssignZone e zones = k + 1 ∧
      multiAssignZone e zones = k + 1 ∧
      ((∃ j, j < N ∧ zoneContains ((zones.drop 1).getD j (0, 0)) e) →
        (zoneContains ((zones.drop 1).getD k (0, 0)) e ∧
         ∀ j, j < k → ¬ zoneContains ((zones.drop 1).getD j (0, 0)) e)) ∧
      ((∀ j, j < N → ¬ zoneContains ((zones.drop 1).getD j (0, 0)) e) →
        ((∀ j, j < N → zoneDist e ((zones.drop 1).getD k (0, 0))
              ≤ zoneDist e ((zones.drop 1).getD j (0, 0))) ∧
         (∀ j, j < k → zoneDist e ((zones.drop 1).getD k (0, 0))
              < zoneDist e ((zones.drop 1).getD j (0, 0))))) := by
  have hczlen : (zones.drop 1).length = N := by
    rw [List.length_drop, hlen]
    omega
  have hpiff : ∀ z : ℚ × ℚ,
      ((fun z : ℚ × ℚ => decide (z.1 ≤ e) && decide (e ≤ z.2)) z) = true
        ↔ zoneContains z e := by
    intro z
    simp [zoneContains]
  cases hf : (zones.drop 1).findIdx?
      (fun z => decide (z.1 ≤ e) && decide (e ≤ z.2)) with
  | some idx =>
    obtain ⟨hlt, hpidx, hprior⟩ := List.findIdx?_eq_some_iff_getElem.mp hf
    refine ⟨idx, by omega, ?_, ?_, ?_, ?_⟩
    · unfold simpleAssignZone
      simp only [hf]
    · unfold multiAssignZone
      simp only [hf]
    · intro _
      constructor
      · rw [List.getD_eq_getElem _ _ (by omega)]
        exact (hpiff _).mp hpidx
      · intro j hj
        rw [List.getD_eq_getElem _ _ (by omega)]
        intro hcon
        exact (hprior j hj) ((hpiff _).mpr hcon)
    · intro hnone
      exfalso
      have h1 := hnone idx (by omega)
      rw [List.getD_eq_getElem _ _ (by omega)] at h1
      exact h1 ((hpiff _).mp hpidx)
  | none =>
    have hnoneall : ∀ z ∈ zones.drop 1,
        ¬ ((fun z : ℚ × ℚ => decide (z.1 ≤ e) && decide (e ≤ z.2)) z) = true := by
      intro z hz
      have := List.findIdx?_eq_none_iff.mp hf z hz
      simp [this]
    have hdlen : ((zones.drop 1).map (zoneDist e)).length = N := by
      simpa using hczlen
    obtain ⟨m, hm⟩ : ∃ m, ((zones.drop 1).map (zoneDist e)).min? = some m := by
      cases hmin : ((zones.drop 1).map (zoneDist e)).min? with
      | none =>
        rw [List.min?_eq_none_iff] at hmin
        exfalso
        have := congrArg List.length hmin
        rw [hdlen] at this
        simp at this
        omega
      | some m => exact ⟨m, rfl⟩
    obtain ⟨hmmem, hmle⟩ := (List.min?_eq_some_iff (fun a => le_refl a)
      (fun a b => min_choice a b) (fun a b c => le_min_iff)).mp hm
    have hK : ((zones.drop 1).map (zoneDist e)).indexOf m < N := by
      rw [← hdlen]
      exact List.indexOf_lt_length.mpr hmmem
    have hKlen : ((zones.drop 1).map (zoneDist e)).indexOf m
        < ((zones.drop 1).map (zoneDist e)).length := by omega
    have hKcz : ((zones.drop 1).map (zoneDist e)).indexOf m
        < (zones.drop 1).length := by omega
    have hKval : zoneDist e ((zones.drop 1).getD
        (((zones.drop 1).map (zoneDist e)).indexOf m) (0, 0)) = m := by
      rw [List.getD_eq_getElem _ _ hKcz]
      have h1 := List.getElem_indexOf hKlen
      rw [List.getElem_map] at h1
      exact h1
    have hjval : ∀ j, j < N → zoneDist e ((zones.drop 1).getD j (0, 0))
        ∈ (zones.drop 1).map (zoneDist e) := by
      intro j hj
      rw [List.getD_eq_getElem _ _ (by omega)]
      rw [← @List.getElem_map _ _ (zoneDist e) _ _ (by omega)]
      exact List.getElem_mem _
    refine ⟨((zones.drop 1).map (zoneDist e)).indexOf m, hK, ?_, ?_, ?_, ?_⟩
    · unfold simpleAssignZone
      simp only [hf, hm]
    · rw [multiAssignZone_eq_simple]
      unfold simpleAssignZone
      simp only [hf, hm]
    · rintro ⟨j, hj, hcont⟩
      exfalso
      have h1 := hnoneall ((zones.drop 1).getD j (0, 0))
      rw [List.getD_eq_getElem _ _ (by omega)] at h1 hcont
      exact h1 (List.getElem_mem _) ((hpiff _).mpr hcont)
    · intro _
      constructor
      · intro j hj
        rw [hKval]
        exact hmle _ (hjval j hj)
      · intro j hjK
        rw [hKval]
        have hjN : j < N := by omega
        have hne : zoneDist e ((zones.drop 1).getD j (0, 0)) ≠ m := by
          have h2 : j < ((zones.drop 1).map (zoneDist e)).length := by omega
          have h3 := ne_of_lt_indexOf hjK h2
          rw [List.get_eq_getElem, List.getElem_map] at h3
          rw [List.getD_eq_getElem _ _ (by omega)]
          exact h3
        have hge := hmle _ (hjval j hjN)
        exact lt_of_le_of_ne hge (Ne.symm hne)
/-- Witness for C3 at `N = 1`, zones `[(0,2), (0,1)]`, elevation `5`. -/
theorem assign_zone_characterization_witness :
    (1 ≤ 1 ∧ ([((0 : ℚ), (2 : ℚ)), (0, 1)] : List (ℚ × ℚ)).length = 1 + 1) ∧
    (∃ k, k < 1 ∧
      simpleAssignZone 5 [((0 : ℚ), (2 : ℚ)), (0, 1)] = k + 1 ∧
      multiAssignZone 5 [((0 : ℚ), (2 : ℚ)), (0, 1)] = k + 1 ∧
      ((∃ j, j < 1 ∧ zoneContains
          ((([((0 : ℚ), (2 : ℚ)), (0, 1)] : List (ℚ × ℚ)).drop 1).getD j (0, 0)) 5) →
        (zoneContains
          ((([((0 : ℚ), (2 : ℚ)), (0, 1)] : List (ℚ × ℚ)).drop 1).getD k (0, 0)) 5 ∧
         ∀ j, j < k → ¬ zoneContains
          ((([((0 : ℚ), (2 : ℚ)), (0, 1)] : List (ℚ × ℚ)).drop 1).getD j (0, 0)) 5)) ∧
      ((∀ j, j < 1 → ¬ zoneContains
          ((([((0 : ℚ), (2 : ℚ)), (0, 1)] : List (ℚ × ℚ)).drop 1).getD j (0, 0)) 5) →
        ((∀ j, j < 1 → zoneDist 5
              ((([((0 : ℚ), (2 : ℚ)), (0, 1)] : List (ℚ × ℚ)).drop 1).getD k (0, 0))
            ≤ zoneDist 5
              ((([((0 : ℚ), (2 : ℚ)), (0, 1)] : List (ℚ × ℚ)).drop 1).getD j (0, 0))) ∧
         (∀ j, j < k → zoneDist 5
              ((([((0 : ℚ), (2 : ℚ)), (0, 1)] : List (ℚ × ℚ)).drop 1).getD k (0, 0))
            < zoneDist 5
              ((([((0 : ℚ), (2 : ℚ)), (0, 1)] : List (ℚ × ℚ)).drop 1).getD j (0, 0)))))) :=
  ⟨⟨le_refl 1, rfl⟩,
    assign_zone_characterization 1 (le_refl 1) [((0 : ℚ), (2 : ℚ)), (0, 1)] rfl 5⟩
/-! ## Configuration validation (`config/parser.py`, `Config.validate`,
lines 109-141) and the request flow of `main.py` (configuration is
validated at line 46, before any elevation fetch or mesh generation). -/

/-- `BoundsConfig` dataclass. -/
structure BoundsConfig where
  north : ℚ
  south : ℚ
  east : ℚ
  west : ℚ

/-- `LocationConfig` dataclass. -/
structure LocationConfig where
  address : Option String
  radius_km : Option ℚ
  bounds : Option BoundsConfig

/-- `OutputConfig` dataclass. -/
structure OutputConfig where
  filename : String
  printer_bed_mm : ℚ
  format : String

/-- `HeightSteppingConfig` dataclass. -/
structure HeightSteppingConfig where
  enabled : Bool
  step_height_mm : ℚ
  smooth_transitions : Bool

/-- `ColorConfig` dataclass (`num_colors` is a Python `int`, so `ℤ`). -/
structure ColorConfig where
  enabled : Bool
  num_colors : ℤ
  color_mode : String
  color_names : Option (List String)
  layer_thickness_mm : ℚ

/-- `TerrainConfig` dataclass. -/
structure TerrainConfig where
  resolution_meters : ℚ
  vertical_exaggeration : ℚ
  base_thickness_mm : ℚ
  height_stepping : HeightSteppingConfig
  colors : ColorConfig

/-- `Config` dataclass. -/
structure Config where
  location : LocationConfig
  output : OutputConfig
  terrain : TerrainConfig

/-- Python truthiness of `self.location.address`
(`None` and the empty string are falsy). -/
def addressTruthy (a : Option String) : Bool :=
  match a with
  | none => false
  | some s => !(s == "")

/-- Python's `str.lower()` (per-character lowercase; `String.toLower` in
core is well-founded recursion and so does not reduce, hence this
structural model). -/
def strLower (s : String) : String := ⟨s.data.map Char.toLower⟩

/-- The tail of `Config.validate` from the color checks on (factored out
because the bounds check rejoins this same code path). -/
def Config.validateColors (c : Config) : Except String Unit :=
  if c.terrain.colors.enabled &&
      !(decide (1 ≤ c.terrain.colors.num_colors) && decide (c.terrain.colors.num_colors ≤ 6)) then
    Except.error "Number of colors must be between 1 and 6"
  else if c.terrain.colors.enabled &&
      !(c.terrain.colors.color_mode == "elevation" || c.terrain.colors.color_mode == "slope") then
    Except.error "Color mode must be 'elevation' or 'slope'"
  else if c.terrain.height_stepping.enabled &&
      decide (c.terrain.height_stepping.step_height_mm ≤ 0) then
    Except.error "Step height must be positive"
  else if !(strLower c.output.format == "stl" || strLower c.output.format == "3mf"
      || strLower c.output.format == "amf" || strLower c.output.format == "obj") then
    Except.error "Output format must be one of the valid formats"
  else Except.ok ()

/-- `Config.validate`: each `raise ValueError(...)` becomes an
`Except.error` with the source's message, checked in source order. -/
def Config.validate (c : Config) : Except String Unit :=
  if c.location.address.isNone && c.location.bounds.isNone then
    Except.error "Either address or bounds must be specified"
  else if addressTruthy c.location.address && c.location.radius_km.isNone then
    Except.error "radius_km must be specified when using address"
  else if c.location.bounds.isSome && addressTruthy c.location.address then
    Except.error "Cannot specify both address and bounds"
  else
    match c.location.bounds with
    | some b =>
      if b.north ≤ b.south then
        Except.error "North bound must be greater than south bound"
      else if b.east ≤ b.west then
        Except.error "East bound must be greater than west bound"
      else c.validateColors
    | none => c.validateColors

/-- The request flow of `main.py`: `config.validate()` runs first (line
46) and any `ValueError` aborts the request; mesh generation (lines
105-170) runs only afterwards.  `geometry` stands for whichever mesh
generator the run would use. -/
def runGeneration (cfg : Config) (geometry : Config → List Face) :
    Except String (List Face) :=
  match cfg.validate with
  | Except.error e => Except.error e
  | Except.ok () => Except.ok (geometry cfg)
/-- A configuration with colors disabled, `num_colors = 0` (outside
`[1,6]`), a negative step height with stepping disabled, and valid
bounds. -/
def cfgUnvalidatedExtremes : Config :=
  ⟨⟨none, none, some ⟨2, 1, 2, 1⟩⟩,
   ⟨"out.stl", 220, "stl"⟩,
   ⟨30, 2, 5, ⟨false, (-1 : ℚ), true⟩, ⟨false, 0, "elevation", none, 2⟩⟩⟩

/-- **C9 (counterexample).** `num_colors = 0` is outside `[1, 6]` and the
step height is negative, yet `Config.validate` succeeds (the color check
runs only when colors are enabled and the step check only when height
stepping is enabled), and the request proceeds to geometry generation. -/
theorem config_validation_counterexample :
    cfgUnvalidatedExtremes.terrain.colors.num_colors = 0 ∧
    ¬ (1 ≤ (0 : ℤ) ∧ (0 : ℤ) ≤ 6) ∧
    cfgUnvalidatedExtremes.terrain.height_stepping.step_height_mm = -1 ∧
    Config.validate cfgUnvalidatedExtremes = Except.ok () ∧
    runGeneration cfgUnvalidatedExtremes (fun _ => [(0, 1, 2)])
      = Except.ok [(0, 1, 2)] :=
  ⟨rfl, by decide, rfl, rfl, rfl⟩

/-- Any `validateColors` error makes `validate` fail. -/
lemma validate_error_of_validateColors (c : Config)
    (h : ∃ m, c.validateColors = Except.error m) :
    ∃ m, c.validate = Except.error m := by
  unfold Config.validate
  split_ifs with h1 h2 h3
  · exact ⟨_, rfl⟩
  · exact ⟨_, rfl⟩
  · exact ⟨_, rfl⟩
  · cases hb : c.location.bounds with
    | none => simpa [hb] using h
    | some b =>
      simp only [hb]
      split_ifs with h4 h5
      · exact ⟨_, rfl⟩
      · exact ⟨_, rfl⟩
      · exact h

/-- **C9 (amended).** Validation fails with a fatal error when colors are
*enabled* and `num_colors` is outside `[1, 6]`, when height stepping is
*enabled* and the step height is non-positive, or when geographic bounds
are *provided* and invalid (`north ≤ south` or `east ≤ west`); the
failure aborts the request before any geometry work. (Unlike the original
claim, the checks are gated on the corresponding feature being
enabled/present.) -/
theorem config_validation_gated (c : Config)
    (h : (c.terrain.colors.enabled = true ∧
            ¬(1 ≤ c.terrain.colors.num_colors ∧ c.terrain.colors.num_colors ≤ 6))
       ∨ (c.terrain.height_stepping.enabled = true ∧
            c.terrain.height_stepping.step_height_mm ≤ 0)
       ∨ (∃ b, c.location.bounds = some b ∧ (b.north ≤ b.south ∨ b.east ≤ b.west))) :
    ∃ msg, c.validate = Except.error msg ∧
      ∀ geometry, runGeneration c geometry = Except.error msg := by
  have herr : ∃ m, c.validate = Except.error m := by
    rcases h with ⟨hen, hout⟩ | ⟨hen, hstep⟩ | ⟨b, hb, hbad⟩
    · apply validate_error_of_validateColors
      unfold Config.validateColors
      have hcond : (c.terrain.colors.enabled &&
          !(decide (1 ≤ c.terrain.colors.num_colors) &&
            decide (c.terrain.colors.num_colors ≤ 6))) = true := by
        rw [hen]
        simp only [Bool.true_and, Bool.not_eq_true']
        rw [Bool.eq_false_iff]
        intro hcon
        rw [Bool.and_eq_true, decide_eq_true_iff, decide_eq_true_iff] at hcon
        exact hout hcon
      rw [if_pos hcond]
      exact ⟨_, rfl⟩
    · apply validate_error_of_validateColors
      unfold Config.validateColors
      split_ifs with h1 h2 h3 h4
      · exact ⟨_, rfl⟩
      · exact ⟨_, rfl⟩
      · exact ⟨_, rfl⟩
      · exact ⟨_, rfl⟩
      · exfalso
        apply h3
        rw [hen]
        simpa using hstep
    · unfold Config.validate
      split_ifs with h1 h2 h3
      · exact ⟨_, rfl⟩
      · exact ⟨_, rfl⟩
      · exact ⟨_, rfl⟩
      · simp only [hb]
        split_ifs with h4 h5
        · exact ⟨_, rfl⟩
        · exact ⟨_, rfl⟩
        · exfalso
          rcases hbad with hb1 | hb2
          · exact h4 hb1
          · exact h5 hb2
  obtain ⟨m, hm⟩ := herr
  refine ⟨m, hm, ?_⟩
  intro geometry
  unfold runGeneration
  rw [hm]

/-- A configuration with colors enabled and `num_colors = 7`. -/
def cfgTooManyColors : Config :=
  ⟨⟨none, none, some ⟨2, 1, 2, 1⟩⟩,
   ⟨"out.stl", 220, "stl"⟩,
   ⟨30, 2, 5, ⟨false, 2, true⟩, ⟨true, 7, "elevation", none, 2⟩⟩⟩

/-- Witness for C9 (amended): colors enabled with `num_colors = 7`. -/
theorem config_validation_gated_witness :
    ((cfgTooManyColors.terrain.colors.enabled = true ∧
        ¬(1 ≤ cfgTooManyColors.terrain.colors.num_colors ∧
          cfgTooManyColors.terrain.colors.num_colors ≤ 6))
      ∨ (cfgTooManyColors.terrain.height_stepping.enabled = true ∧
          cfgTooManyColors.terrain.height_stepping.step_height_mm ≤ 0)
      ∨ (∃ b, cfgTooManyColors.location.bounds = some b ∧
          (b.north ≤ b.south ∨ b.east ≤ b.west))) ∧
    (∃ msg, cfgTooManyColors.validate = Except.error msg ∧
      ∀ geometry, runGeneration cfgTooManyColors geometry = Except.error msg) :=
  ⟨Or.inl ⟨rfl, by decide⟩,
    config_validation_gated cfgTooManyColors (Or.inl ⟨rfl, by decide⟩)⟩
/-! ## Vertex colors (`ColoredMeshExporter._calculate_vertex_colors`,
colored_export.py lines 109-148) -/

/-- An RGBA color. -/
abbrev Color := ℕ × ℕ × ℕ × ℕ

/-- `np.min` over a vector (junk `0` when empty, where numpy raises). -/
def listMin (l : List ℚ) : ℚ :=
  match l.min? with
  | some m => m
  | none => 0

/-- `np.max` over a vector (junk `0` when empty, where numpy raises). -/
def listMax (l : List ℚ) : ℚ :=
  match l.max? with
  | some m => m
  | none => 0

/-- `_calculate_vertex_colors`: flat-terrain and flat-solid cases paint
every vertex with `color_palette[0]`; otherwise each vertex Z (minus the
base thickness) is normalized over the solid's own Z extent and bucketed
with `np.clip(np.floor(normalized * num_colors), 0, num_colors - 1)`. -/
def calculateVertexColors (palette : List Color) (baseThickness : ℚ)
    (vertices : List Vert) (rows cols : ℕ) (elevGrid : ℕ → ℕ → ℚ) : List Color :=
  let minElev := gridMin rows cols elevGrid
  let maxElev := gridMax rows cols elevGrid
  let elevRange := maxElev - minElev
  if elevRange = 0 then vertices.map fun _ => palette.getD 0 (0, 0, 0, 255)
  else
    let zCoords := vertices.map fun v => v.2.2 - baseThickness
    let zMin := listMin zCoords
    let zMax := listMax zCoords
    let zRange := zMax - zMin
    if zRange = 0 then vertices.map fun _ => palette.getD 0 (0, 0, 0, 255)
    else
      zCoords.map fun z =>
        let normalized := (z - zMin) / zRange
        let zoneIdx := max 0 (min ⌊normalized * (palette.length : ℚ)⌋
          ((palette.length : ℤ) - 1))
        palette.getD zoneIdx.toNat (0, 0, 0, 255)
/-- **C7.** `_calculate_vertex_colors` returns one color per vertex; in
the degenerate cases (zero source elevation range, or zero Z extent of
the solid) every vertex receives palette index 0 and no error is raised;
otherwise each vertex receives the palette color at index
`clamp(floor(normalized_z * palette_size), 0, palette_size - 1)` where
`normalized_z` normalizes the vertex Z minus base thickness over the
solid's own Z extent, and that index is always a valid palette index. -/
theorem vertex_color_assignment (palette : List Color) (hpal : palette ≠ [])
    (bt : ℚ) (vertices : List Vert) (rows cols : ℕ) (g : ℕ → ℕ → ℚ) :
    (calculateVertexColors palette bt vertices rows cols g).length = vertices.length ∧
    (gridMax rows cols g - gridMin rows cols g = 0 →
      ∀ col ∈ calculateVertexColors palette bt vertices rows cols g,
        col = palette.getD 0 (0, 0, 0, 255)) ∧
    (listMax (vertices.map fun v => v.2.2 - bt)
        - listMin (vertices.map fun v => v.2.2 - bt) = 0 →
      ∀ col ∈ calculateVertexColors palette bt vertices rows cols g,
        col = palette.getD 0 (0, 0, 0, 255)) ∧
    (∀ i, i < vertices.length →
      ∃ idx : ℕ, idx < palette.length ∧
        (calculateVertexColors palette bt vertices rows cols g).getD i (0, 0, 0, 255)
          = palette.getD idx (0, 0, 0, 255) ∧
        (gridMax rows cols g - gridMin rows cols g ≠ 0 →
          listMax (vertices.map fun v => v.2.2 - bt)
            - listMin (vertices.map fun v => v.2.2 - bt) ≠ 0 →
          (idx : ℤ) = max 0 (min
            ⌊((vertices.getD i (0, 0, 0)).2.2 - bt
                - listMin (vertices.map fun v => v.2.2 - bt))
              / (listMax (vertices.map fun v => v.2.2 - bt)
                - listMin (vertices.map fun v => v.2.2 - bt))
              * (palette.length : ℚ)⌋
            ((palette.length : ℤ) - 1)))) := by
  have hlen : 0 < palette.length := List.length_pos.mpr hpal
  by_cases he : gridMax rows cols g - gridMin rows cols g = 0
  · have hout : calculateVertexColors palette bt vertices rows cols g
        = vertices.map fun _ => palette.getD 0 (0, 0, 0, 255) := by
      unfold calculateVertexColors
      rw [if_pos he]
    refine ⟨by rw [hout]; simp, fun _ col hcol => ?_, fun _ col hcol => ?_,
      fun i hi => ⟨0, hlen, ?_, fun hcon => absurd he hcon⟩⟩
    · rw [hout] at hcol
      obtain ⟨v, _, rfl⟩ := List.mem_map.mp hcol
      rfl
    · rw [hout] at hcol
      obtain ⟨v, _, rfl⟩ := List.mem_map.mp hcol
      rfl
    · rw [hout, List.getD_eq_getElem _ _ (by simpa using hi), List.getElem_map]
  · by_cases hz : listMax (vertices.map fun v => v.2.2 - bt)
        - listMin (vertices.map fun v => v.2.2 - bt) = 0
    · have hout : calculateVertexColors palette bt vertices rows cols g
          = vertices.map fun _ => palette.getD 0 (0, 0, 0, 255) := by
        unfold calculateVertexColors
        rw [if_neg he, if_pos hz]
      refine ⟨by rw [hout]; simp, fun hcon _ _ => absurd hcon he,
        fun _ col hcol => ?_,
        fun i hi => ⟨0, hlen, ?_, fun _ hcon => absurd hz hcon⟩⟩
      · rw [hout] at hcol
        obtain ⟨v, _, rfl⟩ := List.mem_map.mp hcol
        rfl
      · rw [hout, List.getD_eq_getElem _ _ (by simpa using hi), List.getElem_map]
    · have hout : calculateVertexColors palette bt vertices rows cols g
          = (vertices.map fun v => v.2.2 - bt).map fun z =>
              palette.getD (max 0 (min
                ⌊(z - listMin (vertices.map fun v => v.2.2 - bt))
                    / (listMax (vertices.map fun v => v.2.2 - bt)
                      - listMin (vertices.map fun v => v.2.2 - bt))
                  * (palette.length : ℚ)⌋
                ((palette.length : ℤ) - 1))).toNat (0, 0, 0, 255) := by
        unfold calculateVertexColors
        rw [if_neg he, if_neg hz]
      refine ⟨by rw [hout]; simp, fun hcon => absurd hcon he,
        fun hcon => absurd hcon hz, fun i hi => ?_⟩
      have hiz : i < (vertices.map fun v => v.2.2 - bt).length := by simpa using hi
      set fl : ℤ := ⌊((vertices.map fun v => v.2.2 - bt)[i]
          - listMin (vertices.map fun v => v.2.2 - bt))
            / (listMax (vertices.map fun v => v.2.2 - bt)
              - listMin (vertices.map fun v => v.2.2 - bt))
          * (palette.length : ℚ)⌋ with hfl
      have hclamp1 : (0 : ℤ) ≤ max 0 (min fl ((palette.length : ℤ) - 1)) :=
        le_max_left 0 _
      have hclamp2 : max 0 (min fl ((palette.length : ℤ) - 1))
          ≤ (palette.length : ℤ) - 1 := by
        apply max_le
        · omega
        · exact min_le_right _ _
      refine ⟨(max 0 (min fl ((palette.length : ℤ) - 1))).toNat, by omega, ?_, ?_⟩
      · rw [hout, List.getD_eq_getElem _ _ (by simpa using hi), List.getElem_map]
      · intro _ _
        rw [Int.toNat_of_nonneg hclamp1, hfl]
        have hv : (vertices.map fun v => v.2.2 - bt)[i]
            = (vertices.getD i (0, 0, 0)).2.2 - bt := by
          rw [List.getElem_map, List.getD_eq_getElem _ _ hi]
        rw [hv]
/-- Witness for C7: one-color palette, a single vertex, a flat 1×1 grid. -/
theorem vertex_color_assignment_witness :
    ([((255, 0, 0, 255) : Color)] ≠ []) ∧
    ((calculateVertexColors [((255, 0, 0, 255) : Color)] 5 [((0 : ℚ), (0 : ℚ), (5 : ℚ))]
        1 1 (fun _ _ => 0)).length = [((0 : ℚ), (0 : ℚ), (5 : ℚ))].length ∧
    (gridMax 1 1 (fun _ _ => (0 : ℚ)) - gridMin 1 1 (fun _ _ => (0 : ℚ)) = 0 →
      ∀ col ∈ calculateVertexColors [((255, 0, 0, 255) : Color)] 5
          [((0 : ℚ), (0 : ℚ), (5 : ℚ))] 1 1 (fun _ _ => 0),
        col = [((255, 0, 0, 255) : Color)].getD 0 (0, 0, 0, 255)) ∧
    (listMax ([((0 : ℚ), (0 : ℚ), (5 : ℚ))].map fun v => v.2.2 - 5)
        - listMin ([((0 : ℚ), (0 : ℚ), (5 : ℚ))].map fun v => v.2.2 - 5) = 0 →
      ∀ col ∈ calculateVertexColors [((255, 0, 0, 255) : Color)] 5
          [((0 : ℚ), (0 : ℚ), (5 : ℚ))] 1 1 (fun _ _ => 0),
        col = [((255, 0, 0, 255) : Color)].getD 0 (0, 0, 0, 255)) ∧
    (∀ i, i < [((0 : ℚ), (0 : ℚ), (5 : ℚ))].length →
      ∃ idx : ℕ, idx < [((255, 0, 0, 255) : Color)].length ∧
        (calculateVertexColors [((255, 0, 0, 255) : Color)] 5
            [((0 : ℚ), (0 : ℚ), (5 : ℚ))] 1 1 (fun _ _ => 0)).getD i (0, 0, 0, 255)
          = [((255, 0, 0, 255) : Color)].getD idx (0, 0, 0, 255) ∧
        (gridMax 1 1 (fun _ _ => (0 : ℚ)) - gridMin 1 1 (fun _ _ => (0 : ℚ)) ≠ 0 →
          listMax ([((0 : ℚ), (0 : ℚ), (5 : ℚ))].map fun v => v.2.2 - 5)
            - listMin ([((0 : ℚ), (0 : ℚ), (5 : ℚ))].map fun v => v.2.2 - 5) ≠ 0 →
          (idx : ℤ) = max 0 (min
            ⌊(([((0 : ℚ), (0 : ℚ), (5 : ℚ))].getD i (0, 0, 0)).2.2 - 5
                - listMin ([((0 : ℚ), (0 : ℚ), (5 : ℚ))].map fun v => v.2.2 - 5))
              / (listMax ([((0 : ℚ), (0 : ℚ), (5 : ℚ))].map fun v => v.2.2 - 5)
                - listMin ([((0 : ℚ), (0 : ℚ), (5 : ℚ))].map fun v => v.2.2 - 5))
              * (([((255, 0, 0, 255) : Color)].length : ℚ))⌋
            (([((255, 0, 0, 255) : Color)].length : ℤ) - 1))))) :=
  ⟨by simp,
    vertex_color_assignment [((255, 0, 0, 255) : Color)] (by simp) 5
      [((0 : ℚ), (0 : ℚ), (5 : ℚ))] 1 1 (fun _ _ => 0)⟩
/-! ## Normalisation and solid building (`MeshGenerator`, generator.py):
`_normalize_to_printer_bed` (lines 86-109), `_get_ordered_boundary_indices`
(lines 211-232), `_add_base` (lines 139-180) and the `generate_mesh`
pipeline (lines 10-34, up to the trimesh repair hand-off). -/

/-- `_normalize_to_printer_bed`. The scale factor divides by the X and Y
extents with **no zero-extent check** (`ℚ` division by zero yields the
junk value 0 where numpy emits `inf` with a runtime warning; neither
raises). Returns the normalized `(x, y, z)` grids. -/
def normalizeToPrinterBed (printerBedMM : ℚ) (rows cols : ℕ)
    (x y z : ℕ → ℕ → ℚ) : (ℕ → ℕ → ℚ) × (ℕ → ℕ → ℚ) × (ℕ → ℕ → ℚ) :=
  let xRange := gridMax rows cols x - gridMin rows cols x
  let yRange := gridMax rows cols y - gridMin rows cols y
  let bedSize := printerBedMM - 20
  let scaleFactor := min (bedSize / xRange) (bedSize / yRange)
  let xNorm := fun i j => (x i j - gridMin rows cols x) * scaleFactor
  let yNorm := fun i j => (y i j - gridMin rows cols y) * scaleFactor
  let zNorm := fun i j => (z i j - gridMin rows cols z) * scaleFactor
  let xOffset := (printerBedMM - gridMax rows cols xNorm) / 2
  let yOffset := (printerBedMM - gridMax rows cols yNorm) / 2
  (fun i j => xNorm i j + xOffset, fun i j => yNorm i j + yOffset, zNorm)

/-- `_get_ordered_boundary_indices`: top row left→right, right column
top→bottom without corners, bottom row right→left (guarded by
`rows > 1`), left column bottom→top without corners. Descending Python
ranges become maps of descending index formulas. -/
def boundaryIndices (rows cols : ℕ) : List ℕ :=
  (List.range cols) ++
  ((List.range (rows - 2)).map fun t => (t + 1) * cols + (cols - 1)) ++
  (if 1 < rows then
    (List.range cols).map fun t => (rows - 1) * cols + (cols - 1 - t)
  else []) ++
  ((List.range (rows - 2)).map fun t => (rows - 2 - t) * cols)

/-- The side-wall faces of `_add_base`: two triangles
`[v1, v2, v3], [v2, v4, v3]` per consecutive boundary pair, where the
base copy of vertex `v` is `v + n`. -/
def sideFaces (n : ℕ) (bnd : List ℕ) : List Face :=
  (List.range bnd.length).flatMap fun k =>
    let v1 := bnd.getD k 0
    let v2 := bnd.getD ((k + 1) % bnd.length) 0
    [(v1, v2, v1 + n), (v2, v2 + n, v1 + n)]

/-- `_add_base`: duplicates every surface vertex at `z = 0`, appends
side-wall faces along the ordered boundary, and appends the floor faces
(the surface faces shifted by `n` with reversed winding,
`[:, [0, 2, 1]]`). -/
def addBase (vertices : List Vert) (faces : List Face) (rows cols : ℕ) :
    List Vert × List Face :=
  let baseVertices := vertices.map fun v => (v.1, v.2.1, (0 : ℚ))
  let allVertices := vertices ++ baseVertices
  let n := vertices.length
  let bnd := boundaryIndices rows cols
  let side := sideFaces n bnd
  let baseFaces := faces.map fun f => (f.1 + n, f.2.2 + n, f.2.1 + n)
  (allVertices, faces ++ side ++ baseFaces)

/-- The `generate_mesh` pipeline from projected metric coordinates up to
the trimesh hand-off: vertical exaggeration, bed normalisation, base
thickness offset, surface mesh, base/walls. (The lat/lon → meters
projection and the trimesh repair are outside this embedding.) -/
def generateMeshRaw (printerBedMM vexag baseThicknessMM : ℚ) (rows cols : ℕ)
    (x y elev : ℕ → ℕ → ℚ) : List Vert × List Face :=
  let z := fun i j => elev i j * vexag
  let norm := normalizeToPrinterBed printerBedMM rows cols x y z
  let zb := fun i j => norm.2.2 i j + baseThicknessMM
  let vertices := surfaceVertices rows cols norm.1 norm.2.1 zb
  let faces := surfaceFaces rows cols
  addBase vertices faces rows cols

/-- **C5 (evaluation at the failing input).** On a 2×2 grid whose
projected X coordinates are all equal — zero planar X extent — mesh
generation does *not* fail: no `DegenerateGeometryError` exists anywhere
in the source, `_normalize_to_printer_bed` performs the division by the
zero extent (numpy: an infinite scale factor with only a runtime
warning), and the pipeline still produces the full solid geometry of
8 vertices and 12 faces. -/
theorem degenerate_extent_produces_geometry :
    (gridMax 2 2 (fun _ _ => (0 : ℚ)) - gridMin 2 2 (fun _ _ => (0 : ℚ)) = 0) ∧
    (generateMeshRaw 220 2 5 2 2 (fun _ _ => 0) (fun _ j => (j : ℚ))
        (fun _ _ => 100)).2.length = 12 ∧
    (generateMeshRaw 220 2 5 2 2 (fun _ _ => 0) (fun _ j => (j : ℚ))
        (fun _ _ => 100)).1.length = 8 := by
  refine ⟨?_, rfl, rfl⟩
  norm_num [gridMax, gridMin, gridValues, List.range_succ, List.min?, List.max?]
/-! ## Simple multi-color generation
(`SimpleMultiColorMeshGenerator`, simple_multicolor.py: `_is_boundary_point`
lines 79-98, `_create_layer_faces` lines 515-579, `_create_color_layer`
lines 465-513, `_create_base_layer` lines 279-295,
`generate_multi_color_meshes` lines 13-40).

The trimesh repair step (`_validate_and_fix_mesh`) consists of external
trimesh library calls; it is abstracted as a `repair` function parameter.
A mesh is a vertex list with a face list. -/

/-- `np.isnan`: identically false on the rational (NaN-free) domain of
this embedding. -/
def qIsNaN (_ : ℚ) : Bool := false

/-- `_is_boundary_point`: some of the 8 neighbours (diagonals included)
is in bounds, non-NaN, and assigned to the target zone. -/
def isBoundaryPoint (rows cols : ℕ) (z : ℕ → ℕ → ℚ) (zones : List (ℚ × ℚ))
    (targetZone : ℕ) (i j : ℕ) : Bool :=
  ([-1, 0, 1] : List ℤ).any fun di =>
    ([-1, 0, 1] : List ℤ).any fun dj =>
      if di = 0 && dj = 0 then false
      else
        let ni := (i : ℤ) + di
        let nj := (j : ℤ) + dj
        decide (0 ≤ ni) && decide (ni < (rows : ℤ)) &&
        decide (0 ≤ nj) && decide (nj < (cols : ℤ)) &&
        !qIsNaN (z ni.toNat nj.toNat) &&
        (simpleAssignZone (z ni.toNat nj.toNat) zones == targetZone)

/-- The inclusion test of `_create_color_layer`'s vertex loop: a non-NaN
cell is included when its zone equals `zone_idx`, or its zone is higher
and it borders a cell of `zone_idx`. -/
def colorLayerIncludes (rows cols : ℕ) (z : ℕ → ℕ → ℚ) (zones : List (ℚ × ℚ))
    (zoneIdx : ℕ) (i j : ℕ) : Bool :=
  !qIsNaN (z i j) &&
    (let pz := simpleAssignZone (z i j) zones
     pz == zoneIdx || (decide (zoneIdx < pz) && isBoundaryPoint rows cols z zones zoneIdx i j))

/-- The included cells of a color layer, in the source's row-major loop
order. -/
def includedCells (rows cols : ℕ) (z : ℕ → ℕ → ℚ) (zones : List (ℚ × ℚ))
    (zoneIdx : ℕ) : List (ℕ × ℕ) :=
  (List.range rows).flatMap fun i =>
    (List.range cols).filterMap fun j =>
      if colorLayerIncludes rows cols z zones zoneIdx i j then some (i, j) else none

/-- `_create_layer_faces` over the `vertex_indices` array (modelled as a
partial index map: `some v` is the top-vertex index, the bottom vertex is
`v + 1`): top and bottom triangles for every fully-included quad, plus
side walls towards included right and down neighbours. -/
def createLayerFaces (vi : ℕ → ℕ → Option ℕ) (rows cols : ℕ) : List Face :=
  ((List.range (rows - 1)).flatMap fun i =>
    (List.range (cols - 1)).flatMap fun j =>
      match vi i j, vi i (j + 1), vi (i + 1) j, vi (i + 1) (j + 1) with
      | some v00, some v01, some v10, some v11 =>
        [(v00, v01, v10), (v01, v11, v10),
         (v00 + 1, v10 + 1, v01 + 1), (v01 + 1, v10 + 1, v11 + 1)]
      | _, _, _, _ => []) ++
  ((List.range rows).flatMap fun i =>
    (List.range cols).flatMap fun j =>
      match vi i j with
      | some curr =>
        (match (if j + 1 < cols then vi i (j + 1) else none) with
         | some nxt => [(curr + 1, curr, nxt + 1), (curr, nxt, nxt + 1)]
         | none => []) ++
        (match (if i + 1 < rows then vi (i + 1) j else none) with
         | some nxt => [(curr + 1, nxt, curr), (curr + 1, nxt + 1, nxt)]
         | none => [])
      | none => [])

/-- `_create_color_layer`: build the included cells' top/bottom vertex
pairs (the `vertex_indices` entry of an included cell is twice its
position in the row-major included-cell list), return `None` when no
vertex was created, else the repaired layer mesh. -/
def createColorLayer (repair : List Vert × List Face → List Vert × List Face)
    (rows cols : ℕ) (x y z : ℕ → ℕ → ℚ) (zones : List (ℚ × ℚ))
    (layerThickness : ℚ) (zoneIdx : ℕ) : Option (List Vert × List Face) :=
  let cells := includedCells rows cols z zones zoneIdx
  if cells.isEmpty then none
  else
    let vertices := cells.flatMap fun p =>
      [(x p.1 p.2, y p.1 p.2, z p.1 p.2 + layerThickness),
       (x p.1 p.2, y p.1 p.2, z p.1 p.2)]
    let vi : ℕ → ℕ → Option ℕ := fun i j =>
      if (i, j) ∈ cells then some (2 * cells.indexOf (i, j)) else none
    let faces := createLayerFaces vi rows cols
    some (repair (vertices, faces))

/-- `_create_base_layer`: full-terrain surface mesh plus `_add_base`,
then repair. -/
def createBaseLayer (repair : List Vert × List Face → List Vert × List Face)
    (rows cols : ℕ) (x y z : ℕ → ℕ → ℚ) : List Vert × List Face :=
  repair (addBase (surfaceVertices rows cols x y z) (surfaceFaces rows cols) rows cols)

/-- The `f"layer{i:02d}"` key format. -/
def layerName (i : ℕ) : String :=
  "layer" ++ (if i < 10 then "0" ++ toString i else toString i)

/-- `generate_multi_color_meshes` (simple generator), from projected
metric coordinates: normalize, add the layer thickness to all heights,
compute zones, emit the base layer under `"layer00"`, then one entry per
color zone `1..num_colors` whose `_create_color_layer` is not `None`.
The output dict is modelled as an association list in insertion order. -/
def generateMultiColorMeshes (printerBedMM vexag layerThickness : ℚ)
    (numColors : ℕ) (repair : List Vert × List Face → List Vert × List Face)
    (rows cols : ℕ) (x y elev : ℕ → ℕ → ℚ) :
    List (String × (List Vert × List Face)) :=
  let z := fun i j => elev i j * vexag
  let norm := normalizeToPrinterBed printerBedMM rows cols x y z
  let zg := fun i j => norm.2.2 i j + layerThickness
  let zones := simpleCalculateColorZones rows cols zg numColors
  let baseMesh := createBaseLayer repair rows cols norm.1 norm.2.1 zg
  let colorLayers := (List.range numColors).filterMap fun t =>
    match createColorLayer repair rows cols norm.1 norm.2.1 zg zones
        layerThickness (t + 1) with
    | some m => some (layerName (t + 1), m)
    | none => none
  ("layer00", baseMesh) :: colorLayers

lemma length_filterMap_eq_length_filter {α β : Type} (f : α → Option β) (l : List α) :
    (l.filterMap f).length = (l.filter fun a => (f a).isSome).length := by
  induction l with
  | nil => simp
  | cons a t ih =>
    rw [List.filterMap_cons, List.filter_cons]
    cases h : f a with
    | none => simpa [h] using ih
    | some b => simpa [h] using ih
/-- **C10.** The multi-layer output always contains the base layer under
key `"layer00"` (it is the first entry), has at most `num_colors + 1`
entries, and has exactly one entry besides the base for each color zone
whose `_create_color_layer` footprint is non-empty — an empty zone
contributes no entry and causes no error (the function is total). -/
theorem multi_color_meshes_structure (printerBedMM vexag lt : ℚ) (N : ℕ)
    (repair : List Vert × List Face → List Vert × List Face)
    (rows cols : ℕ) (x y elev : ℕ → ℕ → ℚ) :
    (∃ m, (generateMultiColorMeshes printerBedMM vexag lt N repair rows cols x y elev).head?
        = some ("layer00", m)) ∧
    (generateMultiColorMeshes printerBedMM vexag lt N repair rows cols x y elev).length
      ≤ N + 1 ∧
    (generateMultiColorMeshes printerBedMM vexag lt N repair rows cols x y elev).length
      = 1 + ((List.range N).filter fun t =>
          (createColorLayer repair rows cols
            (normalizeToPrinterBed printerBedMM rows cols x y
              (fun i j => elev i j * vexag)).1
            (normalizeToPrinterBed printerBedMM rows cols x y
              (fun i j => elev i j * vexag)).2.1
            (fun i j => (normalizeToPrinterBed printerBedMM rows cols x y
              (fun i j => elev i j * vexag)).2.2 i j + lt)
            (simpleCalculateColorZones rows cols
              (fun i j => (normalizeToPrinterBed printerBedMM rows cols x y
                (fun i j => elev i j * vexag)).2.2 i j + lt) N)
            lt (t + 1)).isSome).length := by
  refine ⟨⟨_, rfl⟩, ?_, ?_⟩
  · show (_ :: _).length ≤ N + 1
    rw [List.length_cons]
    have h := List.length_filterMap_le
      (fun t => match createColorLayer repair rows cols
          (normalizeToPrinterBed printerBedMM rows cols x y
            (fun i j => elev i j * vexag)).1
          (normalizeToPrinterBed printerBedMM rows cols x y
            (fun i j => elev i j * vexag)).2.1
          (fun i j => (normalizeToPrinterBed printerBedMM rows cols x y
            (fun i j => elev i j * vexag)).2.2 i j + lt)
          (simpleCalculateColorZones rows cols
            (fun i j => (normalizeToPrinterBed printerBedMM rows cols x y
              (fun i j => elev i j * vexag)).2.2 i j + lt) N)
          lt (t + 1) with
        | some m => some (layerName (t + 1), m)
        | none => none)
      (List.range N)
    simp only [List.length_range] at h
    omega
  · show (_ :: _).length = _
    rw [List.length_cons, length_filterMap_eq_length_filter]
    have hcongr : ∀ t ∈ List.range N,
        ((match createColorLayer repair rows cols
            (normalizeToPrinterBed printerBedMM rows cols x y
              (fun i j => elev i j * vexag)).1
            (normalizeToPrinterBed printerBedMM rows cols x y
              (fun i j => elev i j * vexag)).2.1
            (fun i j => (normalizeToPrinterBed printerBedMM rows cols x y
              (fun i j => elev i j * vexag)).2.2 i j + lt)
            (simpleCalculateColorZones rows cols
              (fun i j => (normalizeToPrinterBed printerBedMM rows cols x y
                (fun i j => elev i j * vexag)).2.2 i j + lt) N)
            lt (t + 1) with
          | some m => some (layerName (t + 1), m)
          | none => none).isSome)
        = (createColorLayer repair rows cols
            (normalizeToPrinterBed printerBedMM rows cols x y
              (fun i j => elev i j * vexag)).1
            (normalizeToPrinterBed printerBedMM rows cols x y
              (fun i j => elev i j * vexag)).2.1
            (fun i j => (normalizeToPrinterBed printerBedMM rows cols x y
              (fun i j => elev i j * vexag)).2.2 i j + lt)
            (simpleCalculateColorZones rows cols
              (fun i j => (normalizeToPrinterBed printerBedMM rows cols x y
                (fun i j => elev i j * vexag)).2.2 i j + lt) N)
            lt (t + 1)).isSome := by
      intro t _
      cases h : createColorLayer repair rows cols
          (normalizeToPrinterBed printerBedMM rows cols x y
            (fun i j => elev i j * vexag)).1
          (normalizeToPrinterBed printerBedMM rows cols x y
            (fun i j => elev i j * vexag)).2.1
          (fun i j => (normalizeToPrinterBed printerBedMM rows cols x y
            (fun i j => elev i j * vexag)).2.2 i j + lt)
          (simpleCalculateColorZones rows cols
            (fun i j => (normalizeToPrinterBed printerBedMM rows cols x y
              (fun i j => elev i j * vexag)).2.2 i j + lt) N)
          lt (t + 1) with
      | none => rfl
      | some m => rfl
    rw [List.filter_congr hcongr]
    omega
/-! ## Watertightness of the `_add_base` solid (C1)

Undirected edges are normalised pairs `(min, max)`. The development
characterises, for every undirected edge of the solid's face list, the
number of face slots containing it, and shows it is exactly 2. -/

/-- The undirected edge `{a, b}` as a sorted pair. -/
def sedge (a b : ℕ) : ℕ × ℕ := if a ≤ b then (a, b) else (b, a)

/-- The three undirected edges of a triangle. -/
def edgesOf (F : Face) : List (ℕ × ℕ) :=
  [sedge F.1 F.2.1, sedge F.2.1 F.2.2, sedge F.1 F.2.2]

/-- Shifting an edge into the floor vertex block. -/
def shiftE (n : ℕ) (e : ℕ × ℕ) : ℕ × ℕ := (e.1 + n, e.2 + n)

/-- Horizontal grid edge from cell `(i, j)` to `(i, j+1)`. -/
def eH (c i j : ℕ) : ℕ × ℕ := (i * c + j, i * c + (j + 1))

/-- Vertical grid edge from cell `(i, j)` to `(i+1, j)`. -/
def eV (c i j : ℕ) : ℕ × ℕ := (i * c + j, (i + 1) * c + j)

/-- Diagonal edge of quad `(i, j)`, from `(i, j+1)` to `(i+1, j)`. -/
def eD (c i j : ℕ) : ℕ × ℕ := (i * c + (j + 1), (i + 1) * c + j)

lemma sedge_of_le {a b : ℕ} (h : a ≤ b) : sedge a b = (a, b) := by
  unfold sedge
  rw [if_pos h]

lemma sedge_of_ge {a b : ℕ} (h : b ≤ a) : sedge a b = (b, a) := by
  unfold sedge
  by_cases hab : a ≤ b
  · rw [if_pos hab]
    have heq : a = b := le_antisymm hab h
    subst heq
    rfl
  · rw [if_neg hab]

lemma sedge_comm (a b : ℕ) : sedge a b = sedge b a := by
  rcases le_total a b with h | h
  · rw [sedge_of_le h, sedge_of_ge h]
  · rw [sedge_of_ge h, sedge_of_le h]

lemma shiftE_inj {n : ℕ} {d d' : ℕ × ℕ} (h : shiftE n d = shiftE n d') : d = d' := by
  unfold shiftE at h
  rw [Prod.ext_iff] at h ⊢
  omega

lemma sedge_shift (n a b : ℕ) : sedge (a + n) (b + n) = shiftE n (sedge a b) := by
  rcases le_total a b with h | h
  · rw [sedge_of_le h, sedge_of_le (by omega)]
    rfl
  · rw [sedge_of_ge h, sedge_of_ge (by omega)]
    rfl

/-- `(i+1)*c` unfolded, for `omega`-friendly rewriting. -/
lemma succ_mul_c (i c : ℕ) : (i + 1) * c = i * c + c := by ring

lemma eH_inj {c i j i' j' : ℕ} (_hc : 2 ≤ c) (hj : j < c - 1) (hj' : j' < c - 1)
    (h : eH c i j = eH c i' j') : i = i' ∧ j = j' := by
  unfold eH at h
  rw [Prod.ext_iff] at h
  exact rowcol_inj (by omega) (by omega) h.1

lemma eV_inj {c i j i' j' : ℕ} (_hc : 2 ≤ c) (hj : j < c) (hj' : j' < c)
    (h : eV c i j = eV c i' j') : i = i' ∧ j = j' := by
  unfold eV at h
  rw [Prod.ext_iff] at h
  exact rowcol_inj (by omega) (by omega) h.1

lemma eD_inj {c i j i' j' : ℕ} (hc : 2 ≤ c) (hj : j < c - 1) (hj' : j' < c - 1)
    (h : eD c i j = eD c i' j') : i = i' ∧ j = j' := by
  unfold eD at h
  rw [Prod.ext_iff] at h
  have h1 := @rowcol_inj c i (j + 1) i' (j' + 1) (by omega) (by omega) h.1
  omega

lemma eH_ne_eV {c i j i' j' : ℕ} (hc : 2 ≤ c) (hj : j < c - 1) (hj' : j' < c) :
    eH c i j ≠ eV c i' j' := by
  unfold eH eV
  rw [Ne, Prod.ext_iff]
  rintro ⟨h1, h2⟩
  obtain ⟨hi1, hj1⟩ := rowcol_inj (by omega) (by omega) h1
  obtain ⟨hi2, hj2⟩ := @rowcol_inj c i (j + 1) (i' + 1) j'
    (by omega) (by omega) h2
  omega

lemma eH_ne_eD {c i j i' j' : ℕ} (hc : 2 ≤ c) (hj : j < c - 1) (hj' : j' < c - 1) :
    eH c i j ≠ eD c i' j' := by
  unfold eH eD
  rw [Ne, Prod.ext_iff]
  rintro ⟨h1, h2⟩
  obtain ⟨hi1, hj1⟩ := @rowcol_inj c i j i' (j' + 1)
    (by omega) (by omega) h1
  obtain ⟨hi2, hj2⟩ := @rowcol_inj c i (j + 1) (i' + 1) j'
    (by omega) (by omega) h2
  omega

lemma eV_ne_eD {c i j i' j' : ℕ} (hc : 2 ≤ c) (hj : j < c) (hj' : j' < c - 1) :
    eV c i j ≠ eD c i' j' := by
  unfold eV eD
  rw [Ne, Prod.ext_iff]
  rintro ⟨h1, h2⟩
  obtain ⟨hi1, hj1⟩ := @rowcol_inj c i j i' (j' + 1)
    (by omega) (by omega) h1
  obtain ⟨hi2, hj2⟩ := @rowcol_inj c (i + 1) j (i' + 1) j'
    (by omega) (by omega) h2
  omega

lemma eH_bounds {r c i j : ℕ} (hc : 2 ≤ c) (hi : i < r) (hj : j < c - 1) :
    (eH c i j).1 < r * c ∧ (eH c i j).2 < r * c ∧ (eH c i j).1 < (eH c i j).2 := by
  refine ⟨rowcol_lt hi (by omega), rowcol_lt hi (by omega), ?_⟩
  unfold eH
  omega

lemma eV_bounds {r c i j : ℕ} (hc : 2 ≤ c) (hi : i < r - 1) (hj : j < c) (hr : 2 ≤ r) :
    (eV c i j).1 < r * c ∧ (eV c i j).2 < r * c ∧ (eV c i j).1 < (eV c i j).2 := by
  refine ⟨rowcol_lt (by omega) hj, rowcol_lt (by omega) hj, ?_⟩
  unfold eV
  rw [succ_mul_c]
  omega

lemma eD_bounds {r c i j : ℕ} (hc : 2 ≤ c) (hi : i < r - 1) (hj : j < c - 1) (hr : 2 ≤ r) :
    (eD c i j).1 < r * c ∧ (eD c i j).2 < r * c ∧ (eD c i j).1 < (eD c i j).2 := by
  refine ⟨rowcol_lt (by omega) (by omega), rowcol_lt (by omega) (by omega), ?_⟩
  unfold eD
  rw [succ_mul_c]
  omega
/-! Sum evaluation helpers. -/

lemma sum_range_add {M : Type} [AddCommMonoid M] (m n : ℕ) (f : ℕ → M) :
    ∑ k in Finset.range (m + n), f k
      = (∑ k in Finset.range m, f k) + ∑ k in Finset.range n, f (m + k) := by
  induction n with
  | zero => simp
  | succ n ih =>
    rw [show m + (n + 1) = (m + n) + 1 from rfl, Finset.sum_range_succ,
      Finset.sum_range_succ, ih, add_assoc]

lemma sum1_zero {m : ℕ} {g : ℕ → ℕ} (hz : ∀ k, k < m → g k = 0) :
    ∑ k in Finset.range m, g k = 0 :=
  Finset.sum_eq_zero fun k hk => hz k (Finset.mem_range.mp hk)

lemma sum1_single {m : ℕ} {g : ℕ → ℕ} (k0 : ℕ) (hk : k0 < m)
    (hz : ∀ k, k < m → k ≠ k0 → g k = 0) :
    ∑ k in Finset.range m, g k = g k0 :=
  Finset.sum_eq_single_of_mem k0 (Finset.mem_range.mpr hk)
    fun k hk' hne => hz k (Finset.mem_range.mp hk') hne

lemma sum2_zero {m n : ℕ} {g : ℕ → ℕ → ℕ} (hz : ∀ i, i < m → ∀ j, j < n → g i j = 0) :
    ∑ i in Finset.range m, ∑ j in Finset.range n, g i j = 0 :=
  Finset.sum_eq_zero fun i hi =>
    Finset.sum_eq_zero fun j hj =>
      hz i (Finset.mem_range.mp hi) j (Finset.mem_range.mp hj)

lemma sum2_single {m n : ℕ} {g : ℕ → ℕ → ℕ} (i0 j0 : ℕ) (hi : i0 < m) (hj : j0 < n)
    (hz : ∀ i, i < m → ∀ j, j < n → ¬(i = i0 ∧ j = j0) → g i j = 0) :
    ∑ i in Finset.range m, ∑ j in Finset.range n, g i j = g i0 j0 := by
  rw [sum1_single i0 hi]
  · rw [sum1_single j0 hj]
    intro j hjn hne
    exact hz i0 hi j hjn (by tauto)
  · intro i him hne
    apply sum1_zero
    intro j hjn
    exact hz i him j hjn (by tauto)

lemma sum2_pair {m n : ℕ} {g : ℕ → ℕ → ℕ} (i1 j1 i2 j2 : ℕ)
    (h1i : i1 < m) (h1j : j1 < n) (h2i : i2 < m) (h2j : j2 < n)
    (hne : (i1, j1) ≠ (i2, j2))
    (hz : ∀ i, i < m → ∀ j, j < n →
      ¬(i = i1 ∧ j = j1) → ¬(i = i2 ∧ j = j2) → g i j = 0) :
    ∑ i in Finset.range m, ∑ j in Finset.range n, g i j = g i1 j1 + g i2 j2 := by
  rw [← Finset.sum_product']
  have hmem1 : (i1, j1) ∈ Finset.range m ×ˢ Finset.range n := by
    rw [Finset.mem_product]
    exact ⟨Finset.mem_range.mpr h1i, Finset.mem_range.mpr h1j⟩
  have hmem2 : (i2, j2) ∈ Finset.range m ×ˢ Finset.range n := by
    rw [Finset.mem_product]
    exact ⟨Finset.mem_range.mpr h2i, Finset.mem_range.mpr h2j⟩
  rw [Finset.sum_eq_add_of_mem (i1, j1) (i2, j2) hmem1 hmem2 hne]
  intro p hp hp12
  rw [Finset.mem_product, Finset.mem_range, Finset.mem_range] at hp
  refine hz p.1 hp.1 p.2 hp.2 ?_ ?_
  · intro hcon
    exact hp12.1 (Prod.ext hcon.1 hcon.2)
  · intro hcon
    exact hp12.2 (Prod.ext hcon.1 hcon.2)

/-- Rotating the summation index one step around the cycle `[0, L)`. -/
lemma sum_range_rotate {M : Type} [AddCommMonoid M] (L : ℕ) (hL : 0 < L) (f : ℕ → M) :
    ∑ k in Finset.range L, f ((k + 1) % L) = ∑ k in Finset.range L, f k := by
  obtain ⟨L', rfl⟩ : ∃ L', L = L' + 1 := ⟨L - 1, by omega⟩
  rw [Finset.sum_range_succ, Finset.sum_range_succ']
  have h1 : ∀ k ∈ Finset.range L', f ((k + 1) % (L' + 1)) = f (k + 1) := by
    intro k hk
    rw [Finset.mem_range] at hk
    rw [Nat.mod_eq_of_lt (by omega)]
  rw [Finset.sum_congr rfl h1]
  rw [show (L' + 1) % (L' + 1) = 0 from Nat.mod_self _]
/-! The boundary walk as an index formula. `L` abbreviates the loop length
`2*c + 2*r - 4`. -/

/-- The `k`-th vertex of the ordered boundary walk. -/
def bFun (r c k : ℕ) : ℕ :=
  if k < c then k
  else if k < c + (r - 2) then (k - c + 1) * c + (c - 1)
  else if k < 2 * c + (r - 2) then (r - 1) * c + (2 * c + r - 3 - k)
  else (2 * c + 2 * r - 4 - k) * c

/-- Grid row of the `k`-th boundary vertex. -/
def bRow (r c k : ℕ) : ℕ :=
  if k < c then 0
  else if k < c + (r - 2) then k - c + 1
  else if k < 2 * c + (r - 2) then r - 1
  else 2 * c + 2 * r - 4 - k

/-- Grid column of the `k`-th boundary vertex. -/
def bCol (r c k : ℕ) : ℕ :=
  if k < c then k
  else if k < c + (r - 2) then c - 1
  else if k < 2 * c + (r - 2) then 2 * c + r - 3 - k
  else 0

lemma bFun_eq_rowcol (r c k : ℕ) : bFun r c k = bRow r c k * c + bCol r c k := by
  unfold bFun bRow bCol
  split_ifs with h1 h2 h3
  · rw [zero_mul, zero_add]
  · rfl
  · rfl
  · rfl

lemma bRow_lt {r c k : ℕ} (hr : 2 ≤ r) (_hc : 2 ≤ c)
    (_hk : k < 2 * c + 2 * r - 4) : bRow r c k < r := by
  unfold bRow
  split_ifs <;> omega

lemma bCol_lt {r c k : ℕ} (_hr : 2 ≤ r) (hc : 2 ≤ c)
    (_hk : k < 2 * c + 2 * r - 4) : bCol r c k < c := by
  unfold bCol
  split_ifs <;> omega

lemma bRowCol_inj {r c k k' : ℕ} (hr : 2 ≤ r) (hc : 2 ≤ c)
    (hk : k < 2 * c + 2 * r - 4) (hk' : k' < 2 * c + 2 * r - 4)
    (hrow : bRow r c k = bRow r c k') (hcol : bCol r c k = bCol r c k') : k = k' := by
  unfold bRow at hrow
  unfold bCol at hcol
  split_ifs at hrow hcol <;> omega

/-- The boundary walk is injective: every boundary vertex is visited at
most once. -/
lemma bFun_inj {r c k k' : ℕ} (hr : 2 ≤ r) (hc : 2 ≤ c)
    (hk : k < 2 * c + 2 * r - 4) (hk' : k' < 2 * c + 2 * r - 4)
    (h : bFun r c k = bFun r c k') : k = k' := by
  rw [bFun_eq_rowcol, bFun_eq_rowcol] at h
  obtain ⟨h1, h2⟩ := rowcol_inj (bCol_lt hr hc hk) (bCol_lt hr hc hk') h
  exact bRowCol_inj hr hc hk hk' h1 h2

/-- The boundary vertex index is a valid surface vertex index. -/
lemma bFun_lt_n {r c k : ℕ} (hr : 2 ≤ r) (hc : 2 ≤ c)
    (hk : k < 2 * c + 2 * r - 4) : bFun r c k < r * c := by
  rw [bFun_eq_rowcol]
  exact rowcol_lt (bRow_lt hr hc hk) (bCol_lt hr hc hk)

lemma boundaryIndices_length {r c : ℕ} (hr : 2 ≤ r) :
    (boundaryIndices r c).length = 2 * c + 2 * r - 4 := by
  unfold boundaryIndices
  rw [if_pos (by omega)]
  simp only [List.length_append, List.length_map, List.length_range]
  omega

/-- The boundary list realises the index formula. -/
lemma boundaryIndices_getD {r c k : ℕ} (hr : 2 ≤ r) (hc : 2 ≤ c)
    (hk : k < 2 * c + 2 * r - 4) :
    (boundaryIndices r c).getD k 0 = bFun r c k := by
  unfold boundaryIndices bFun
  rw [if_pos (show 1 < r by omega)]
  by_cases h1 : k < c
  · rw [List.getD_append _ _ _ _ (by simp; omega),
      List.getD_append _ _ _ _ (by simp; omega),
      List.getD_append _ _ _ _ (by simpa using h1),
      if_pos h1, List.getD_eq_getElem _ _ (by simpa using h1)]
    simp
  · rw [if_neg h1]
    by_cases h2 : k < c + (r - 2)
    · rw [List.getD_append _ _ _ _ (by simp; omega),
        List.getD_append _ _ _ _ (by simp; omega),
        List.getD_append_right _ _ _ _ (by simpa using h1),
        if_pos h2]
      simp only [List.length_range]
      rw [List.getD_eq_getElem _ _ (by simp; omega)]
      simp only [List.getElem_map, List.getElem_range]
    · rw [if_neg h2]
      by_cases h3 : k < 2 * c + (r - 2)
      · rw [List.getD_append _ _ _ _ (by simp; omega),
          List.getD_append_right _ _ _ _ (by simp; omega),
          if_pos h3]
        simp only [List.length_append, List.length_range, List.length_map]
        rw [List.getD_eq_getElem _ _ (by simp; omega)]
        simp only [List.getElem_map, List.getElem_range]
        congr 1
        omega
      · rw [List.getD_append_right _ _ _ _ (by simp; omega),
          if_neg h3]
        simp only [List.length_append, List.length_range, List.length_map]
        rw [List.getD_eq_getElem _ _ (by simp; omega)]
        simp only [List.getElem_map, List.getElem_range]
        congr 1
        omega

lemma bFun_low {r c k : ℕ} (hk : k < c) : bFun r c k = k := by
  unfold bFun
  rw [if_pos hk]

lemma bFun_right {r c k : ℕ} (h1 : c ≤ k) (h2 : k < c + (r - 2)) :
    bFun r c k = (k - c + 1) * c + (c - 1) := by
  unfold bFun
  rw [if_neg (by omega), if_pos h2]

lemma bFun_bottom {r c k : ℕ} (h1 : c + (r - 2) ≤ k) (h2 : k < 2 * c + (r - 2)) :
    bFun r c k = (r - 1) * c + (2 * c + r - 3 - k) := by
  unfold bFun
  rw [if_neg (by omega), if_neg (by omega), if_pos h2]

lemma bFun_left {r c k : ℕ} (h1 : 2 * c + (r - 2) ≤ k) :
    bFun r c k = (2 * c + 2 * r - 4 - k) * c := by
  unfold bFun
  rw [if_neg (by omega), if_neg (by omega), if_neg (by omega)]

/-! The boundary wall walk: vertex pair of the `k`-th wall quad. -/

/-- The pair (current boundary vertex, next boundary vertex) used by the
`k`-th wall quad of `_add_base`. -/
def pFun (r c k : ℕ) : ℕ × ℕ :=
  (bFun r c k, bFun r c ((k + 1) % (2 * c + 2 * r - 4)))

/-- The undirected top edge of the `k`-th wall quad. -/
def sedgeP (r c k : ℕ) : ℕ × ℕ := sedge (pFun r c k).1 (pFun r c k).2

lemma mod_succ_ne {L k : ℕ} (hL : 2 ≤ L) (hk : k < L) : (k + 1) % L ≠ k := by
  by_cases h : k + 1 < L
  · rw [Nat.mod_eq_of_lt h]
    omega
  · have hEq : k + 1 = L := by omega
    rw [hEq, Nat.mod_self]
    omega

lemma pFun_ne {r c k : ℕ} (hr : 2 ≤ r) (hc : 2 ≤ c)
    (hk : k < 2 * c + 2 * r - 4) : (pFun r c k).1 ≠ (pFun r c k).2 := by
  unfold pFun
  intro h
  have hlt : (k + 1) % (2 * c + 2 * r - 4) < 2 * c + 2 * r - 4 :=
    Nat.mod_lt _ (by omega)
  have := bFun_inj hr hc hk hlt h
  exact mod_succ_ne (by omega) hk this.symm

lemma pFun_r1 {r c k : ℕ} (hr : 2 ≤ r) (hc : 2 ≤ c) (hk : k < c - 1) :
    pFun r c k = (k, k + 1) := by
  unfold pFun
  rw [Nat.mod_eq_of_lt (by omega)]
  rw [bFun_low (by omega), bFun_low (by omega)]

lemma pFun_r2 {r c t : ℕ} (hr : 2 ≤ r) (hc : 2 ≤ c) (ht : t < r - 1) :
    pFun r c (c - 1 + t) = (t * c + (c - 1), (t + 1) * c + (c - 1)) := by
  unfold pFun
  rw [Nat.mod_eq_of_lt (by omega)]
  simp only [Prod.mk.injEq]
  constructor
  · by_cases h0 : t = 0
    · subst h0
      rw [bFun_low (by omega)]
      omega
    · rw [bFun_right (by omega) (by omega)]
      rw [show c - 1 + t - c + 1 = t from by omega]
  · by_cases hlast : t = r - 2
    · subst hlast
      rw [bFun_bottom (by omega) (by omega)]
      rw [show 2 * c + r - 3 - (c - 1 + (r - 2) + 1) = c - 1 from by omega,
        show r - 2 + 1 = r - 1 from by omega]
    · rw [bFun_right (by omega) (by omega)]
      rw [show c - 1 + t + 1 - c + 1 = t + 1 from by omega]

lemma pFun_r3 {r c u : ℕ} (hr : 2 ≤ r) (hc : 2 ≤ c) (hu : u < c - 1) :
    pFun r c (c - 1 + (r - 1) + u)
      = ((r - 1) * c + (c - 1 - u), (r - 1) * c + (c - 2 - u)) := by
  unfold pFun
  rw [Nat.mod_eq_of_lt (by omega)]
  rw [bFun_bottom (by omega) (by omega), bFun_bottom (by omega) (by omega)]
  rw [show 2 * c + r - 3 - (c - 1 + (r - 1) + u) = c - 1 - u from by omega,
    show 2 * c + r - 3 - (c - 1 + (r - 1) + u + 1) = c - 2 - u from by omega]

lemma pFun_r4 {r c w : ℕ} (hr : 2 ≤ r) (hc : 2 ≤ c) (hw : w < r - 1) :
    pFun r c (c - 1 + (r - 1) + (c - 1) + w)
      = ((r - 1 - w) * c, (r - 2 - w) * c) := by
  unfold pFun
  simp only [Prod.mk.injEq]
  constructor
  · by_cases h0 : w = 0
    · subst h0
      rw [bFun_bottom (by omega) (by omega)]
      rw [show 2 * c + r - 3 - (c - 1 + (r - 1) + (c - 1) + 0) = 0 from by omega]
      rw [show r - 1 - 0 = r - 1 from by omega]
      omega
    · rw [bFun_left (by omega)]
      rw [show 2 * c + 2 * r - 4 - (c - 1 + (r - 1) + (c - 1) + w) = r - 1 - w
        from by omega]
  · by_cases hlast : w = r - 2
    · subst hlast
      rw [show c - 1 + (r - 1) + (c - 1) + (r - 2) + 1 = 2 * c + 2 * r - 4
        from by omega, Nat.mod_self, bFun_low (by omega)]
      rw [show r - 2 - (r - 2) = 0 from by omega]
      omega
    · rw [Nat.mod_eq_of_lt (by omega), bFun_left (by omega)]
      rw [show 2 * c + 2 * r - 4 - (c - 1 + (r - 1) + (c - 1) + w + 1) = r - 2 - w
        from by omega]

lemma sedgeP_r1 {r c k : ℕ} (hr : 2 ≤ r) (hc : 2 ≤ c) (hk : k < c - 1) :
    sedgeP r c k = eH c 0 k := by
  unfold sedgeP
  rw [pFun_r1 hr hc hk]
  show sedge k (k + 1) = eH c 0 k
  rw [sedge_of_le (by omega)]
  unfold eH
  simp only [Prod.mk.injEq]
  omega

lemma sedgeP_r2 {r c t : ℕ} (hr : 2 ≤ r) (hc : 2 ≤ c) (ht : t < r - 1) :
    sedgeP r c (c - 1 + t) = eV c t (c - 1) := by
  unfold sedgeP
  rw [pFun_r2 hr hc ht]
  show sedge (t * c + (c - 1)) ((t + 1) * c + (c - 1)) = eV c t (c - 1)
  have hmul := succ_mul_c t c
  rw [sedge_of_le (by omega)]
  rfl

lemma sedgeP_r3 {r c u : ℕ} (hr : 2 ≤ r) (hc : 2 ≤ c) (hu : u < c - 1) :
    sedgeP r c (c - 1 + (r - 1) + u) = eH c (r - 1) (c - 2 - u) := by
  unfold sedgeP
  rw [pFun_r3 hr hc hu]
  show sedge ((r - 1) * c + (c - 1 - u)) ((r - 1) * c + (c - 2 - u))
    = eH c (r - 1) (c - 2 - u)
  rw [sedge_of_ge (by omega)]
  unfold eH
  simp only [Prod.mk.injEq, true_and, and_true]
  omega

lemma sedgeP_r4 {r c w : ℕ} (hr : 2 ≤ r) (hc : 2 ≤ c) (hw : w < r - 1) :
    sedgeP r c (c - 1 + (r - 1) + (c - 1) + w) = eV c (r - 2 - w) 0 := by
  unfold sedgeP
  rw [pFun_r4 hr hc hw]
  show sedge ((r - 1 - w) * c) ((r - 2 - w) * c) = eV c (r - 2 - w) 0
  have hle : (r - 2 - w) * c ≤ (r - 1 - w) * c :=
    Nat.mul_le_mul_right c (by omega)
  rw [sedge_of_ge hle]
  unfold eV
  rw [show r - 2 - w + 1 = r - 1 - w from by omega]
  simp only [Prod.mk.injEq, true_and, and_true]
  omega

/-! Rewriting the wall strip as a walk over the index formula. -/

lemma surfaceVertices_length (r c : ℕ) (x y z : ℕ → ℕ → ℚ) :
    (surfaceVertices r c x y z).length = r * c := by
  unfold surfaceVertices
  rw [length_flatMap_range]
  have h : ∀ i ∈ Finset.range r,
      ((List.range c).map fun j => (x i j, y i j, z i j)).length = c := by
    intro i _
    simp
  rw [Finset.sum_congr rfl h, Finset.sum_const, Finset.card_range, smul_eq_mul]

lemma flatMap_range_congr {α : Type} (n : ℕ) (f g : ℕ → List α)
    (h : ∀ k, k < n → f k = g k) :
    (List.range n).flatMap f = (List.range n).flatMap g := by
  induction n with
  | zero => rfl
  | succ n ih =>
    rw [List.range_succ, List.flatMap_append, List.flatMap_append,
      ih (fun k hk => h k (by omega))]
    simp only [List.flatMap_cons, List.flatMap_nil, List.append_nil]
    rw [h n (by omega)]

/-- One quad of the perimeter wall, on the ordered vertex pair `p`. -/
def wallQuad (n : ℕ) (p : ℕ × ℕ) : List Face :=
  [(p.1, p.2, p.1 + n), (p.2, p.2 + n, p.1 + n)]

lemma sideFaces_eq {r c : ℕ} (hr : 2 ≤ r) (hc : 2 ≤ c) :
    sideFaces (r * c) (boundaryIndices r c)
      = (List.range (2 * c + 2 * r - 4)).flatMap
          fun k => wallQuad (r * c) (pFun r c k) := by
  unfold sideFaces
  rw [boundaryIndices_length hr]
  apply flatMap_range_congr
  intro k hk
  have hmod : (k + 1) % (2 * c + 2 * r - 4) < 2 * c + 2 * r - 4 :=
    Nat.mod_lt _ (by omega)
  simp only [boundaryIndices_length hr, boundaryIndices_getD hr hc hk,
    boundaryIndices_getD hr hc hmod]
  rfl

lemma count_six {α : Type} [BEq α] [LawfulBEq α] [DecidableEq α] (a b c d f g e : α) :
    ([a, b, c, d, f, g] : List α).count e
      = (if a = e then 1 else 0) + (if b = e then 1 else 0)
        + (if c = e then 1 else 0) + (if d = e then 1 else 0)
        + (if f = e then 1 else 0) + (if g = e then 1 else 0) := by
  simp only [List.count_cons, List.count_nil, beq_iff_eq]
  omega

lemma quad_edges {c i j : ℕ} (hc : 2 ≤ c) (_hj : j < c - 1) :
    ([(i * c + j, i * c + (j + 1), (i + 1) * c + j),
      (i * c + (j + 1), (i + 1) * c + (j + 1), (i + 1) * c + j)]
        : List Face).flatMap edgesOf
      = [eH c i j, eD c i j, eV c i j, eV c i (j + 1), eH c (i + 1) j,
         eD c i j] := by
  have hmul := succ_mul_c i c
  unfold edgesOf
  simp only [List.flatMap_cons, List.flatMap_nil, List.append_nil]
  have h1 : sedge (i * c + j) (i * c + (j + 1)) = eH c i j := by
    unfold eH
    rw [sedge_of_le (by omega)]
  have h2 : sedge (i * c + (j + 1)) ((i + 1) * c + j) = eD c i j := by
    unfold eD
    rw [sedge_of_le (by omega)]
  have h3 : sedge (i * c + j) ((i + 1) * c + j) = eV c i j := by
    unfold eV
    rw [sedge_of_le (by omega)]
  have h4 : sedge (i * c + (j + 1)) ((i + 1) * c + (j + 1)) = eV c i (j + 1) := by
    unfold eV
    rw [sedge_of_le (by omega)]
  have h5 : sedge ((i + 1) * c + (j + 1)) ((i + 1) * c + j) = eH c (i + 1) j := by
    unfold eH
    rw [sedge_of_ge (by omega)]
  rw [h1, h2, h3, h4, h5]
  rfl

lemma wallQuad_edges {n : ℕ} (p : ℕ × ℕ) (h1 : p.1 < n) (h2 : p.2 < n) :
    (wallQuad n p).flatMap edgesOf
      = [sedge p.1 p.2, (p.2, p.1 + n), (p.1, p.1 + n), (p.2, p.2 + n),
         shiftE n (sedge p.1 p.2), (p.2, p.1 + n)] := by
  unfold wallQuad edgesOf
  simp only [List.flatMap_cons, List.flatMap_nil, List.append_nil]
  have e2 : sedge p.2 (p.1 + n) = (p.2, p.1 + n) := sedge_of_le (by omega)
  have e3 : sedge p.1 (p.1 + n) = (p.1, p.1 + n) := sedge_of_le (by omega)
  have e4 : sedge p.2 (p.2 + n) = (p.2, p.2 + n) := sedge_of_le (by omega)
  rw [e2, e3, e4, sedge_shift, sedge_comm p.2 p.1]
  rfl

lemma baseFace_edges (a b c n : ℕ) :
    edgesOf (a + n, c + n, b + n)
      = [shiftE n (sedge a c), shiftE n (sedge b c), shiftE n (sedge a b)] := by
  unfold edgesOf
  rw [sedge_shift, sedge_shift, sedge_shift, sedge_comm c b]

lemma count_swap13 {α : Type} [BEq α] (x y z e : α) :
    ([x, y, z] : List α).count e = ([z, y, x] : List α).count e := by
  simp only [List.count_cons, List.count_nil]
  omega

/-- Number of face slots of `l` whose triangle contains the undirected
edge `e` at a given corner pair. -/
def countE (l : List Face) (e : ℕ × ℕ) : ℕ := (l.flatMap edgesOf).count e

lemma countE_append (l1 l2 : List Face) (e : ℕ × ℕ) :
    countE (l1 ++ l2) e = countE l1 e + countE l2 e := by
  unfold countE
  rw [List.flatMap_append, List.count_append]

lemma countE_map_baseShift (l : List Face) (n : ℕ) (e : ℕ × ℕ) :
    countE (l.map fun f => (f.1 + n, f.2.2 + n, f.2.1 + n)) e
      = ((l.flatMap edgesOf).map (shiftE n)).count e := by
  induction l with
  | nil => rfl
  | cons F t ih =>
    unfold countE at ih ⊢
    simp only [List.map_cons, List.flatMap_cons, List.count_append,
      List.map_append, ih]
    congr 1
    rw [baseFace_edges]
    unfold edgesOf
    simp only [List.map_cons, List.map_nil]
    exact count_swap13 _ _ _ e

lemma count_shift_eq {n : ℕ} (l : List (ℕ × ℕ)) (d : ℕ × ℕ) :
    (l.map (shiftE n)).count (shiftE n d) = l.count d := by
  induction l with
  | nil => rfl
  | cons x t ih =>
    simp only [List.map_cons, List.count_cons, beq_iff_eq, ih]
    by_cases h : x = d
    · subst h
      rw [if_pos rfl, if_pos rfl]
    · rw [if_neg h, if_neg (fun hq => h (shiftE_inj hq))]

lemma count_shift_zero {n : ℕ} (l : List (ℕ × ℕ)) (e : ℕ × ℕ) (he : e.1 < n) :
    (l.map (shiftE n)).count e = 0 := by
  rw [List.count_eq_zero]
  intro hmem
  rw [List.mem_map] at hmem
  obtain ⟨d, _, rfl⟩ := hmem
  unfold shiftE at he
  simp only at he
  omega

lemma countE_surface {r c : ℕ} (hc : 2 ≤ c) (e : ℕ × ℕ) :
    countE (surfaceFaces r c) e
      = ∑ i in Finset.range (r - 1), ∑ j in Finset.range (c - 1),
          ([eH c i j, eD c i j, eV c i j, eV c i (j + 1), eH c (i + 1) j,
            eD c i j].count e) := by
  unfold countE surfaceFaces
  rw [List.flatMap_assoc, count_flatMap_range]
  apply Finset.sum_congr rfl
  intro i _
  rw [List.flatMap_assoc, count_flatMap_range]
  apply Finset.sum_congr rfl
  intro j hj
  rw [Finset.mem_range] at hj
  rw [quad_edges hc hj]

lemma mem_surface_edges {r c : ℕ} (hc : 2 ≤ c) {e : ℕ × ℕ}
    (h : e ∈ (surfaceFaces r c).flatMap edgesOf) :
    ∃ i j, i < r - 1 ∧ j < c - 1 ∧
      (e = eH c i j ∨ e = eD c i j ∨ e = eV c i j ∨ e = eV c i (j + 1)
        ∨ e = eH c (i + 1) j) := by
  unfold surfaceFaces at h
  rw [List.flatMap_assoc, List.mem_flatMap] at h
  obtain ⟨i, hi, h⟩ := h
  rw [List.mem_range] at hi
  rw [List.flatMap_assoc, List.mem_flatMap] at h
  obtain ⟨j, hj, h⟩ := h
  rw [List.mem_range] at hj
  rw [quad_edges hc hj] at h
  refine ⟨i, j, hi, hj, ?_⟩
  simp only [List.mem_cons, List.not_mem_nil, or_false] at h
  tauto

lemma surface_edge_bounds {r c : ℕ} (hr : 2 ≤ r) (hc : 2 ≤ c) {e : ℕ × ℕ}
    (h : e ∈ (surfaceFaces r c).flatMap edgesOf) :
    e.1 < r * c ∧ e.2 < r * c ∧ e.1 < e.2 := by
  obtain ⟨i, j, hi, hj, hcase⟩ := mem_surface_edges hc h
  rcases hcase with rfl | rfl | rfl | rfl | rfl
  · exact eH_bounds hc (by omega) hj
  · exact eD_bounds hc hi hj hr
  · exact eV_bounds hc hi (by omega) hr
  · exact eV_bounds hc hi (by omega) hr
  · exact eH_bounds hc (by omega) hj

lemma countE_surface_zero {r c : ℕ} (hr : 2 ≤ r) (hc : 2 ≤ c) (e : ℕ × ℕ)
    (he : r * c ≤ e.1 ∨ r * c ≤ e.2) : countE (surfaceFaces r c) e = 0 := by
  unfold countE
  rw [List.count_eq_zero]
  intro hmem
  have := surface_edge_bounds hr hc hmem
  omega

/-! Counting surface slots of each undirected-edge shape. -/

lemma quad_count_eH {c i0 j0 i j : ℕ} (hc : 2 ≤ c) (hj0 : j0 < c - 1)
    (hj : j < c - 1) :
    ([eH c i j, eD c i j, eV c i j, eV c i (j + 1), eH c (i + 1) j,
      eD c i j].count (eH c i0 j0))
      = (if i = i0 ∧ j = j0 then 1 else 0)
        + (if i + 1 = i0 ∧ j = j0 then 1 else 0) := by
  rw [count_six]
  have hD : ¬(eD c i j = eH c i0 j0) := fun h => eH_ne_eD hc hj0 hj h.symm
  have hV1 : ¬(eV c i j = eH c i0 j0) := fun h => eH_ne_eV hc hj0 (by omega) h.symm
  have hV2 : ¬(eV c i (j + 1) = eH c i0 j0) :=
    fun h => eH_ne_eV hc hj0 (by omega) h.symm
  rw [if_neg hD, if_neg hV1, if_neg hV2]
  have e1 : (if eH c i j = eH c i0 j0 then 1 else 0)
      = (if i = i0 ∧ j = j0 then 1 else 0) := by
    by_cases h : i = i0 ∧ j = j0
    · rcases h with ⟨rfl, rfl⟩
      rw [if_pos rfl, if_pos ⟨rfl, rfl⟩]
    · rw [if_neg h, if_neg (fun hq => h (eH_inj hc hj hj0 hq))]
  have e2 : (if eH c (i + 1) j = eH c i0 j0 then 1 else 0)
      = (if i + 1 = i0 ∧ j = j0 then 1 else 0) := by
    by_cases h : i + 1 = i0 ∧ j = j0
    · rcases h with ⟨h1, rfl⟩
      rw [← h1, if_pos rfl, if_pos ⟨rfl, rfl⟩]
    · rw [if_neg h, if_neg (fun hq => h (eH_inj hc hj hj0 hq))]
  rw [e1, e2]
  omega

lemma quad_count_eV {c i0 j0 i j : ℕ} (hc : 2 ≤ c) (hj0 : j0 < c)
    (hj : j < c - 1) :
    ([eH c i j, eD c i j, eV c i j, eV c i (j + 1), eH c (i + 1) j,
      eD c i j].count (eV c i0 j0))
      = (if i = i0 ∧ j = j0 then 1 else 0)
        + (if i = i0 ∧ j + 1 = j0 then 1 else 0) := by
  rw [count_six]
  have hH1 : ¬(eH c i j = eV c i0 j0) := eH_ne_eV hc hj hj0
  have hH2 : ¬(eH c (i + 1) j = eV c i0 j0) := eH_ne_eV hc hj hj0
  have hD : ¬(eD c i j = eV c i0 j0) := fun h => eV_ne_eD hc hj0 hj h.symm
  rw [if_neg hH1, if_neg hH2, if_neg hD]
  have e1 : (if eV c i j = eV c i0 j0 then 1 else 0)
      = (if i = i0 ∧ j = j0 then 1 else 0) := by
    by_cases h : i = i0 ∧ j = j0
    · rcases h with ⟨rfl, rfl⟩
      rw [if_pos rfl, if_pos ⟨rfl, rfl⟩]
    · rw [if_neg h, if_neg (fun hq => h (eV_inj hc (by omega) hj0 hq))]
  have e2 : (if eV c i (j + 1) = eV c i0 j0 then 1 else 0)
      = (if i = i0 ∧ j + 1 = j0 then 1 else 0) := by
    by_cases h : i = i0 ∧ j + 1 = j0
    · rcases h with ⟨rfl, h2⟩
      rw [← h2, if_pos rfl, if_pos ⟨rfl, rfl⟩]
    · rw [if_neg h, if_neg (fun hq => h (eV_inj hc (by omega) hj0 hq))]
  rw [e1, e2]
  omega

lemma quad_count_eD {c i0 j0 i j : ℕ} (hc : 2 ≤ c) (hj0 : j0 < c - 1)
    (hj : j < c - 1) :
    ([eH c i j, eD c i j, eV c i j, eV c i (j + 1), eH c (i + 1) j,
      eD c i j].count (eD c i0 j0))
      = (if i = i0 ∧ j = j0 then 2 else 0) := by
  rw [count_six]
  have hH1 : ¬(eH c i j = eD c i0 j0) := eH_ne_eD hc hj hj0
  have hH2 : ¬(eH c (i + 1) j = eD c i0 j0) := eH_ne_eD hc hj hj0
  have hV1 : ¬(eV c i j = eD c i0 j0) := eV_ne_eD hc (by omega) hj0
  have hV2 : ¬(eV c i (j + 1) = eD c i0 j0) := eV_ne_eD hc (by omega) hj0
  rw [if_neg hH1, if_neg hH2, if_neg hV1, if_neg hV2]
  by_cases h : i = i0 ∧ j = j0
  · rcases h with ⟨rfl, rfl⟩
    rw [if_pos rfl, if_pos ⟨rfl, rfl⟩]
  · rw [if_neg (fun hq : eD c i j = eD c i0 j0 => h (eD_inj hc hj hj0 hq)),
      if_neg h]

lemma sum2_if_pair {m n : ℕ} (i0 j0 : ℕ) (hi : i0 < m) (hj : j0 < n) :
    ∑ i in Finset.range m, ∑ j in Finset.range n,
      (if i = i0 ∧ j = j0 then 1 else 0) = 1 := by
  rw [sum2_single i0 j0 hi hj (fun i _ j _ hne => if_neg hne), if_pos ⟨rfl, rfl⟩]

lemma countE_surface_eH {r c i0 j0 : ℕ} (hr : 2 ≤ r) (hc : 2 ≤ c)
    (hi : i0 < r) (hj : j0 < c - 1) :
    countE (surfaceFaces r c) (eH c i0 j0)
      = (if i0 < r - 1 then 1 else 0) + (if 0 < i0 then 1 else 0) := by
  rw [countE_surface hc]
  have h1 : ∑ i in Finset.range (r - 1), ∑ j in Finset.range (c - 1),
      ([eH c i j, eD c i j, eV c i j, eV c i (j + 1), eH c (i + 1) j,
        eD c i j].count (eH c i0 j0))
      = ∑ i in Finset.range (r - 1), ∑ j in Finset.range (c - 1),
          ((if i = i0 ∧ j = j0 then 1 else 0)
            + (if i + 1 = i0 ∧ j = j0 then 1 else 0)) := by
    apply Finset.sum_congr rfl
    intro i _
    apply Finset.sum_congr rfl
    intro j hj'
    rw [Finset.mem_range] at hj'
    exact quad_count_eH hc hj hj'
  rw [h1]
  simp only [Finset.sum_add_distrib]
  congr 1
  · by_cases hcase : i0 < r - 1
    · rw [if_pos hcase, sum2_if_pair i0 j0 hcase hj]
    · rw [if_neg hcase]
      exact sum2_zero fun i hi' j hj' => if_neg (fun hcon => by omega)
  · by_cases hcase : 0 < i0
    · rw [if_pos hcase]
      have hrw : ∑ i in Finset.range (r - 1), ∑ j in Finset.range (c - 1),
          (if i + 1 = i0 ∧ j = j0 then 1 else 0)
          = ∑ i in Finset.range (r - 1), ∑ j in Finset.range (c - 1),
              (if i = i0 - 1 ∧ j = j0 then 1 else 0) := by
        apply Finset.sum_congr rfl
        intro i _
        apply Finset.sum_congr rfl
        intro j _
        exact if_congr (by omega) rfl rfl
      rw [hrw, sum2_if_pair (i0 - 1) j0 (by omega) hj]
    · rw [if_neg hcase]
      exact sum2_zero fun i hi' j hj' => if_neg (fun hcon => by omega)

lemma countE_surface_eV {r c i0 j0 : ℕ} (_hr : 2 ≤ r) (hc : 2 ≤ c)
    (hi : i0 < r - 1) (hj : j0 < c) :
    countE (surfaceFaces r c) (eV c i0 j0)
      = (if j0 < c - 1 then 1 else 0) + (if 0 < j0 then 1 else 0) := by
  rw [countE_surface hc]
  have h1 : ∑ i in Finset.range (r - 1), ∑ j in Finset.range (c - 1),
      ([eH c i j, eD c i j, eV c i j, eV c i (j + 1), eH c (i + 1) j,
        eD c i j].count (eV c i0 j0))
      = ∑ i in Finset.range (r - 1), ∑ j in Finset.range (c - 1),
          ((if i = i0 ∧ j = j0 then 1 else 0)
            + (if i = i0 ∧ j + 1 = j0 then 1 else 0)) := by
    apply Finset.sum_congr rfl
    intro i _
    apply Finset.sum_congr rfl
    intro j hj'
    rw [Finset.mem_range] at hj'
    exact quad_count_eV hc hj hj'
  rw [h1]
  simp only [Finset.sum_add_distrib]
  congr 1
  · by_cases hcase : j0 < c - 1
    · rw [if_pos hcase, sum2_if_pair i0 j0 hi hcase]
    · rw [if_neg hcase]
      exact sum2_zero fun i hi' j hj' => if_neg (fun hcon => by omega)
  · by_cases hcase : 0 < j0
    · rw [if_pos hcase]
      have hrw : ∑ i in Finset.range (r - 1), ∑ j in Finset.range (c - 1),
          (if i = i0 ∧ j + 1 = j0 then 1 else 0)
          = ∑ i in Finset.range (r - 1), ∑ j in Finset.range (c - 1),
              (if i = i0 ∧ j = j0 - 1 then 1 else 0) := by
        apply Finset.sum_congr rfl
        intro i _
        apply Finset.sum_congr rfl
        intro j _
        exact if_congr (by omega) rfl rfl
      rw [hrw, sum2_if_pair i0 (j0 - 1) hi (by omega)]
    · rw [if_neg hcase]
      exact sum2_zero fun i hi' j hj' => if_neg (fun hcon => by omega)

lemma countE_surface_eD {r c i0 j0 : ℕ} (_hr : 2 ≤ r) (hc : 2 ≤ c)
    (hi : i0 < r - 1) (hj : j0 < c - 1) :
    countE (surfaceFaces r c) (eD c i0 j0) = 2 := by
  rw [countE_surface hc]
  have h1 : ∑ i in Finset.range (r - 1), ∑ j in Finset.range (c - 1),
      ([eH c i j, eD c i j, eV c i j, eV c i (j + 1), eH c (i + 1) j,
        eD c i j].count (eD c i0 j0))
      = ∑ i in Finset.range (r - 1), ∑ j in Finset.range (c - 1),
          (if i = i0 ∧ j = j0 then 2 else 0) := by
    apply Finset.sum_congr rfl
    intro i _
    apply Finset.sum_congr rfl
    intro j hj'
    rw [Finset.mem_range] at hj'
    exact quad_count_eD hc hj hj'
  rw [h1, sum2_single i0 j0 hi hj (fun i _ j _ hne => if_neg hne),
    if_pos ⟨rfl, rfl⟩]

/-! Counting wall slots. -/

lemma countE_side {r c : ℕ} (hr : 2 ≤ r) (hc : 2 ≤ c) (e : ℕ × ℕ) :
    countE (sideFaces (r * c) (boundaryIndices r c)) e
      = ∑ k in Finset.range (2 * c + 2 * r - 4),
          ([sedgeP r c k, ((pFun r c k).2, (pFun r c k).1 + r * c),
            ((pFun r c k).1, (pFun r c k).1 + r * c),
            ((pFun r c k).2, (pFun r c k).2 + r * c),
            shiftE (r * c) (sedgeP r c k),
            ((pFun r c k).2, (pFun r c k).1 + r * c)].count e) := by
  unfold countE
  rw [sideFaces_eq hr hc, List.flatMap_assoc, count_flatMap_range]
  apply Finset.sum_congr rfl
  intro k hk
  rw [Finset.mem_range] at hk
  have hmod : (k + 1) % (2 * c + 2 * r - 4) < 2 * c + 2 * r - 4 :=
    Nat.mod_lt _ (by omega)
  rw [wallQuad_edges (pFun r c k) (bFun_lt_n hr hc hk) (bFun_lt_n hr hc hmod)]
  rfl

lemma sedgeP_lt {r c k : ℕ} (hr : 2 ≤ r) (hc : 2 ≤ c)
    (hk : k < 2 * c + 2 * r - 4) :
    (sedgeP r c k).1 < r * c ∧ (sedgeP r c k).2 < r * c := by
  have h1 : (pFun r c k).1 < r * c := bFun_lt_n hr hc hk
  have h2 : (pFun r c k).2 < r * c := bFun_lt_n hr hc (Nat.mod_lt _ (by omega))
  unfold sedgeP sedge
  split_ifs
  · exact ⟨h1, h2⟩
  · exact ⟨h2, h1⟩

lemma wall_count_low {r c k : ℕ} (hr : 2 ≤ r) (hc : 2 ≤ c)
    (hk : k < 2 * c + 2 * r - 4) {e : ℕ × ℕ}
    (he1 : e.1 < r * c) (he2 : e.2 < r * c) :
    ([sedgeP r c k, ((pFun r c k).2, (pFun r c k).1 + r * c),
      ((pFun r c k).1, (pFun r c k).1 + r * c),
      ((pFun r c k).2, (pFun r c k).2 + r * c),
      shiftE (r * c) (sedgeP r c k),
      ((pFun r c k).2, (pFun r c k).1 + r * c)].count e)
      = (if sedgeP r c k = e then 1 else 0) := by
  rw [count_six]
  have hs := sedgeP_lt hr hc hk
  have h2 : ¬(((pFun r c k).2, (pFun r c k).1 + r * c) = e) := by
    intro h
    rw [Prod.ext_iff] at h
    omega
  have h3 : ¬(((pFun r c k).1, (pFun r c k).1 + r * c) = e) := by
    intro h
    rw [Prod.ext_iff] at h
    omega
  have h4 : ¬(((pFun r c k).2, (pFun r c k).2 + r * c) = e) := by
    intro h
    rw [Prod.ext_iff] at h
    omega
  have h5 : ¬(shiftE (r * c) (sedgeP r c k) = e) := by
    intro h
    unfold shiftE at h
    rw [Prod.ext_iff] at h
    omega
  rw [if_neg h2, if_neg h3, if_neg h4, if_neg h5]
  omega

lemma W1_split {r c : ℕ} (g : ℕ → ℕ) (hr : 2 ≤ r) (hc : 2 ≤ c) :
    ∑ k in Finset.range (2 * c + 2 * r - 4), g k
      = (∑ k in Finset.range (c - 1), g k)
        + (∑ t in Finset.range (r - 1), g (c - 1 + t))
        + (∑ u in Finset.range (c - 1), g (c - 1 + (r - 1) + u))
        + (∑ w in Finset.range (r - 1), g (c - 1 + (r - 1) + (c - 1) + w)) := by
  rw [show 2 * c + 2 * r - 4 = (c - 1) + ((r - 1) + ((c - 1) + (r - 1)))
    from by omega]
  rw [sum_range_add, sum_range_add, sum_range_add]
  have h3 : ∀ u ∈ Finset.range (c - 1),
      g (c - 1 + ((r - 1) + u)) = g (c - 1 + (r - 1) + u) := by
    intro u _
    rw [show c - 1 + ((r - 1) + u) = c - 1 + (r - 1) + u from by omega]
  have h4 : ∀ w ∈ Finset.range (r - 1),
      g (c - 1 + ((r - 1) + ((c - 1) + w)))
        = g (c - 1 + (r - 1) + (c - 1) + w) := by
    intro w _
    rw [show c - 1 + ((r - 1) + ((c - 1) + w)) = c - 1 + (r - 1) + (c - 1) + w
      from by omega]
  rw [Finset.sum_congr rfl h3, Finset.sum_congr rfl h4]
  ring

lemma W1_eH {r c i0 j0 : ℕ} (hr : 2 ≤ r) (hc : 2 ≤ c) (hi : i0 < r)
    (hj : j0 < c - 1) :
    ∑ k in Finset.range (2 * c + 2 * r - 4),
      (if sedgeP r c k = eH c i0 j0 then 1 else 0)
      = (if i0 = 0 then 1 else 0) + (if i0 = r - 1 then 1 else 0) := by
  rw [W1_split _ hr hc]
  have hreg1 : ∑ k in Finset.range (c - 1),
      (if sedgeP r c k = eH c i0 j0 then 1 else 0)
      = (if i0 = 0 then 1 else 0) := by
    by_cases h0 : i0 = 0
    · subst h0
      rw [if_pos rfl]
      have hz : ∀ k, k < c - 1 → k ≠ j0 →
          (if sedgeP r c k = eH c 0 j0 then 1 else 0) = 0 := by
        intro k hk hne
        rw [sedgeP_r1 hr hc hk]
        exact if_neg (fun hq => hne (eH_inj hc hk hj hq).2)
      rw [sum1_single j0 hj hz, sedgeP_r1 hr hc hj]
      exact if_pos rfl
    · rw [if_neg h0]
      apply sum1_zero
      intro k hk
      rw [sedgeP_r1 hr hc hk]
      exact if_neg (fun hq => h0 (eH_inj hc hk hj hq).1.symm)
  have hreg2 : ∑ t in Finset.range (r - 1),
      (if sedgeP r c (c - 1 + t) = eH c i0 j0 then 1 else 0) = 0 := by
    apply sum1_zero
    intro t ht
    rw [sedgeP_r2 hr hc ht]
    exact if_neg (fun hq => eH_ne_eV hc hj (by omega) hq.symm)
  have hreg3 : ∑ u in Finset.range (c - 1),
      (if sedgeP r c (c - 1 + (r - 1) + u) = eH c i0 j0 then 1 else 0)
      = (if i0 = r - 1 then 1 else 0) := by
    by_cases hb : i0 = r - 1
    · subst hb
      rw [if_pos rfl]
      have hz : ∀ u, u < c - 1 → u ≠ c - 2 - j0 →
          (if sedgeP r c (c - 1 + (r - 1) + u) = eH c (r - 1) j0 then 1 else 0)
            = 0 := by
        intro u hu hne
        rw [sedgeP_r3 hr hc hu]
        refine if_neg (fun hq => hne ?_)
        have h := (eH_inj hc (show c - 2 - u < c - 1 from by omega) hj hq).2
        omega
      rw [sum1_single (c - 2 - j0) (by omega) hz, sedgeP_r3 hr hc (by omega),
        show c - 2 - (c - 2 - j0) = j0 from by omega]
      exact if_pos rfl
    · rw [if_neg hb]
      apply sum1_zero
      intro u hu
      rw [sedgeP_r3 hr hc hu]
      exact if_neg (fun hq => hb (eH_inj hc (by omega) hj hq).1.symm)
  have hreg4 : ∑ w in Finset.range (r - 1),
      (if sedgeP r c (c - 1 + (r - 1) + (c - 1) + w) = eH c i0 j0 then 1 else 0)
      = 0 := by
    apply sum1_zero
    intro w hw
    rw [sedgeP_r4 hr hc hw]
    exact if_neg (fun hq => eH_ne_eV hc hj (by omega) hq.symm)
  rw [hreg1, hreg2, hreg3, hreg4]
  omega

lemma W1_eV {r c i0 j0 : ℕ} (hr : 2 ≤ r) (hc : 2 ≤ c) (hi : i0 < r - 1)
    (hj : j0 < c) :
    ∑ k in Finset.range (2 * c + 2 * r - 4),
      (if sedgeP r c k = eV c i0 j0 then 1 else 0)
      = (if j0 = c - 1 then 1 else 0) + (if j0 = 0 then 1 else 0) := by
  rw [W1_split _ hr hc]
  have hreg1 : ∑ k in Finset.range (c - 1),
      (if sedgeP r c k = eV c i0 j0 then 1 else 0) = 0 := by
    apply sum1_zero
    intro k hk
    rw [sedgeP_r1 hr hc hk]
    exact if_neg (fun hq => eH_ne_eV hc hk hj hq)
  have hreg2 : ∑ t in Finset.range (r - 1),
      (if sedgeP r c (c - 1 + t) = eV c i0 j0 then 1 else 0)
      = (if j0 = c - 1 then 1 else 0) := by
    by_cases hb : j0 = c - 1
    · subst hb
      rw [if_pos rfl]
      have hz : ∀ t, t < r - 1 → t ≠ i0 →
          (if sedgeP r c (c - 1 + t) = eV c i0 (c - 1) then 1 else 0) = 0 := by
        intro t ht hne
        rw [sedgeP_r2 hr hc ht]
        exact if_neg (fun hq => hne (eV_inj hc (by omega) (by omega) hq).1)
      rw [sum1_single i0 hi hz, sedgeP_r2 hr hc hi]
      exact if_pos rfl
    · rw [if_neg hb]
      apply sum1_zero
      intro t ht
      rw [sedgeP_r2 hr hc ht]
      exact if_neg (fun hq => hb (eV_inj hc (by omega) hj hq).2.symm)
  have hreg3 : ∑ u in Finset.range (c - 1),
      (if sedgeP r c (c - 1 + (r - 1) + u) = eV c i0 j0 then 1 else 0) = 0 := by
    apply sum1_zero
    intro u hu
    rw [sedgeP_r3 hr hc hu]
    exact if_neg (fun hq => eH_ne_eV hc (by omega) hj hq)
  have hreg4 : ∑ w in Finset.range (r - 1),
      (if sedgeP r c (c - 1 + (r - 1) + (c - 1) + w) = eV c i0 j0 then 1 else 0)
      = (if j0 = 0 then 1 else 0) := by
    by_cases hb : j0 = 0
    · subst hb
      rw [if_pos rfl]
      have hz : ∀ w, w < r - 1 → w ≠ r - 2 - i0 →
          (if sedgeP r c (c - 1 + (r - 1) + (c - 1) + w) = eV c i0 0
            then 1 else 0) = 0 := by
        intro w hw hne
        rw [sedgeP_r4 hr hc hw]
        refine if_neg (fun hq => hne ?_)
        have h := (eV_inj hc (by omega) (by omega) hq).1
        omega
      rw [sum1_single (r - 2 - i0) (by omega) hz, sedgeP_r4 hr hc (by omega),
        show r - 2 - (r - 2 - i0) = i0 from by omega]
      exact if_pos rfl
    · rw [if_neg hb]
      apply sum1_zero
      intro w hw
      rw [sedgeP_r4 hr hc hw]
      exact if_neg (fun hq => hb (eV_inj hc (by omega) hj hq).2.symm)
  rw [hreg1, hreg2, hreg3, hreg4]
  omega

lemma W1_eD {r c i0 j0 : ℕ} (hr : 2 ≤ r) (hc : 2 ≤ c) (_hi : i0 < r - 1)
    (hj : j0 < c - 1) :
    ∑ k in Finset.range (2 * c + 2 * r - 4),
      (if sedgeP r c k = eD c i0 j0 then 1 else 0) = 0 := by
  apply sum1_zero
  intro k hk
  by_cases h1 : k < c - 1
  · rw [sedgeP_r1 hr hc h1]
    exact if_neg (fun hq => eH_ne_eD hc h1 hj hq)
  · by_cases h2 : k < c - 1 + (r - 1)
    · rw [show k = c - 1 + (k - (c - 1)) from by omega,
        sedgeP_r2 hr hc (by omega)]
      exact if_neg (fun hq => eV_ne_eD hc (by omega) hj hq)
    · by_cases h3 : k < c - 1 + (r - 1) + (c - 1)
      · rw [show k = c - 1 + (r - 1) + (k - (c - 1 + (r - 1))) from by omega,
          sedgeP_r3 hr hc (by omega)]
        exact if_neg (fun hq => eH_ne_eD hc (by omega) hj hq)
      · rw [show k = c - 1 + (r - 1) + (c - 1) + (k - (c - 1 + (r - 1) + (c - 1)))
          from by omega, sedgeP_r4 hr hc (by omega)]
        exact if_neg (fun hq => eV_ne_eD hc (by omega) hj hq)

/-! Total slot counts per edge class. -/

lemma pFun_fst (r c k : ℕ) : (pFun r c k).1 = bFun r c k := rfl

lemma pFun_snd (r c k : ℕ) :
    (pFun r c k).2 = bFun r c ((k + 1) % (2 * c + 2 * r - 4)) := rfl

lemma NT_eH {r c i0 j0 : ℕ} (hr : 2 ≤ r) (hc : 2 ≤ c) (hi : i0 < r)
    (hj : j0 < c - 1) :
    countE (surfaceFaces r c) (eH c i0 j0)
      + (∑ k in Finset.range (2 * c + 2 * r - 4),
          (if sedgeP r c k = eH c i0 j0 then 1 else 0)) = 2 := by
  rw [countE_surface_eH hr hc hi hj, W1_eH hr hc hi hj]
  split_ifs <;> omega

lemma NT_eV {r c i0 j0 : ℕ} (hr : 2 ≤ r) (hc : 2 ≤ c) (hi : i0 < r - 1)
    (hj : j0 < c) :
    countE (surfaceFaces r c) (eV c i0 j0)
      + (∑ k in Finset.range (2 * c + 2 * r - 4),
          (if sedgeP r c k = eV c i0 j0 then 1 else 0)) = 2 := by
  rw [countE_surface_eV hr hc hi hj, W1_eV hr hc hi hj]
  split_ifs <;> omega

lemma NT_eD {r c i0 j0 : ℕ} (hr : 2 ≤ r) (hc : 2 ≤ c) (hi : i0 < r - 1)
    (hj : j0 < c - 1) :
    countE (surfaceFaces r c) (eD c i0 j0)
      + (∑ k in Finset.range (2 * c + 2 * r - 4),
          (if sedgeP r c k = eD c i0 j0 then 1 else 0)) = 2 := by
  rw [countE_surface_eD hr hc hi hj, W1_eD hr hc hi hj]

lemma countE_base_zero {r c : ℕ} (e : ℕ × ℕ) (he : e.1 < r * c) :
    countE ((surfaceFaces r c).map
      fun f => (f.1 + r * c, f.2.2 + r * c, f.2.1 + r * c)) e = 0 := by
  rw [countE_map_baseShift]
  exact count_shift_zero _ _ he

lemma countE_base_shift {r c : ℕ} (d : ℕ × ℕ) :
    countE ((surfaceFaces r c).map
      fun f => (f.1 + r * c, f.2.2 + r * c, f.2.1 + r * c)) (shiftE (r * c) d)
      = countE (surfaceFaces r c) d := by
  rw [countE_map_baseShift, count_shift_eq]
  rfl

/-- The complete face list of the `_add_base` solid (surface, walls,
reversed floor), with `n = rows*cols` surface vertices. -/
def solidFaces (r c : ℕ) : List Face :=
  surfaceFaces r c ++ sideFaces (r * c) (boundaryIndices r c)
    ++ ((surfaceFaces r c).map
        fun f => (f.1 + r * c, f.2.2 + r * c, f.2.1 + r * c))

lemma countE_solid (r c : ℕ) (e : ℕ × ℕ) :
    countE (solidFaces r c) e
      = countE (surfaceFaces r c) e
        + countE (sideFaces (r * c) (boundaryIndices r c)) e
        + countE ((surfaceFaces r c).map
            fun f => (f.1 + r * c, f.2.2 + r * c, f.2.1 + r * c)) e := by
  unfold solidFaces
  rw [countE_append, countE_append]

lemma total_eH {r c i0 j0 : ℕ} (hr : 2 ≤ r) (hc : 2 ≤ c) (hi : i0 < r)
    (hj : j0 < c - 1) :
    countE (solidFaces r c) (eH c i0 j0) = 2 := by
  have hb := eH_bounds hc hi hj
  rw [countE_solid, countE_side hr hc, countE_base_zero _ hb.1]
  have hlow : ∀ k ∈ Finset.range (2 * c + 2 * r - 4),
      ([sedgeP r c k, ((pFun r c k).2, (pFun r c k).1 + r * c),
        ((pFun r c k).1, (pFun r c k).1 + r * c),
        ((pFun r c k).2, (pFun r c k).2 + r * c),
        shiftE (r * c) (sedgeP r c k),
        ((pFun r c k).2, (pFun r c k).1 + r * c)].count (eH c i0 j0))
        = (if sedgeP r c k = eH c i0 j0 then 1 else 0) :=
    fun k hk => wall_count_low hr hc (Finset.mem_range.mp hk) hb.1 hb.2.1
  rw [Finset.sum_congr rfl hlow]
  have h := NT_eH hr hc hi hj
  omega

lemma total_eV {r c i0 j0 : ℕ} (hr : 2 ≤ r) (hc : 2 ≤ c) (hi : i0 < r - 1)
    (hj : j0 < c) :
    countE (solidFaces r c) (eV c i0 j0) = 2 := by
  have hb := eV_bounds hc hi hj hr
  rw [countE_solid, countE_side hr hc, countE_base_zero _ hb.1]
  have hlow : ∀ k ∈ Finset.range (2 * c + 2 * r - 4),
      ([sedgeP r c k, ((pFun r c k).2, (pFun r c k).1 + r * c),
        ((pFun r c k).1, (pFun r c k).1 + r * c),
        ((pFun r c k).2, (pFun r c k).2 + r * c),
        shiftE (r * c) (sedgeP r c k),
        ((pFun r c k).2, (pFun r c k).1 + r * c)].count (eV c i0 j0))
        = (if sedgeP r c k = eV c i0 j0 then 1 else 0) :=
    fun k hk => wall_count_low hr hc (Finset.mem_range.mp hk) hb.1 hb.2.1
  rw [Finset.sum_congr rfl hlow]
  have h := NT_eV hr hc hi hj
  omega

lemma total_eD {r c i0 j0 : ℕ} (hr : 2 ≤ r) (hc : 2 ≤ c) (hi : i0 < r - 1)
    (hj : j0 < c - 1) :
    countE (solidFaces r c) (eD c i0 j0) = 2 := by
  have hb := eD_bounds hc hi hj hr
  rw [countE_solid, countE_side hr hc, countE_base_zero _ hb.1]
  have hlow : ∀ k ∈ Finset.range (2 * c + 2 * r - 4),
      ([sedgeP r c k, ((pFun r c k).2, (pFun r c k).1 + r * c),
        ((pFun r c k).1, (pFun r c k).1 + r * c),
        ((pFun r c k).2, (pFun r c k).2 + r * c),
        shiftE (r * c) (sedgeP r c k),
        ((pFun r c k).2, (pFun r c k).1 + r * c)].count (eD c i0 j0))
        = (if sedgeP r c k = eD c i0 j0 then 1 else 0) :=
    fun k hk => wall_count_low hr hc (Finset.mem_range.mp hk) hb.1 hb.2.1
  rw [Finset.sum_congr rfl hlow]
  have h := NT_eD hr hc hi hj
  omega

lemma wall_count_shift {r c k : ℕ} (hr : 2 ≤ r) (hc : 2 ≤ c)
    (hk : k < 2 * c + 2 * r - 4) (d : ℕ × ℕ) :
    ([sedgeP r c k, ((pFun r c k).2, (pFun r c k).1 + r * c),
      ((pFun r c k).1, (pFun r c k).1 + r * c),
      ((pFun r c k).2, (pFun r c k).2 + r * c),
      shiftE (r * c) (sedgeP r c k),
      ((pFun r c k).2, (pFun r c k).1 + r * c)].count (shiftE (r * c) d))
      = (if sedgeP r c k = d then 1 else 0) := by
  rw [count_six]
  have hs := sedgeP_lt hr hc hk
  have hp1 : (pFun r c k).1 < r * c := bFun_lt_n hr hc hk
  have hp2 : (pFun r c k).2 < r * c := bFun_lt_n hr hc (Nat.mod_lt _ (by omega))
  have h1 : ¬(sedgeP r c k = shiftE (r * c) d) := by
    intro h
    unfold shiftE at h
    rw [Prod.ext_iff] at h
    omega
  have h2 : ¬(((pFun r c k).2, (pFun r c k).1 + r * c) = shiftE (r * c) d) := by
    intro h
    unfold shiftE at h
    rw [Prod.ext_iff] at h
    omega
  have h3 : ¬(((pFun r c k).1, (pFun r c k).1 + r * c) = shiftE (r * c) d) := by
    intro h
    unfold shiftE at h
    rw [Prod.ext_iff] at h
    omega
  have h4 : ¬(((pFun r c k).2, (pFun r c k).2 + r * c) = shiftE (r * c) d) := by
    intro h
    unfold shiftE at h
    rw [Prod.ext_iff] at h
    omega
  have h5 : (shiftE (r * c) (sedgeP r c k) = shiftE (r * c) d)
      ↔ (sedgeP r c k = d) := ⟨fun h => shiftE_inj h, fun h => by rw [h]⟩
  rw [if_neg h1, if_neg h2, if_neg h3, if_neg h4, if_congr h5 rfl rfl]
  omega

lemma total_shift_eH {r c i0 j0 : ℕ} (hr : 2 ≤ r) (hc : 2 ≤ c) (hi : i0 < r)
    (hj : j0 < c - 1) :
    countE (solidFaces r c) (shiftE (r * c) (eH c i0 j0)) = 2 := by
  rw [countE_solid, countE_side hr hc, countE_base_shift,
    countE_surface_zero hr hc _ (Or.inl (Nat.le_add_left _ _))]
  have hw : ∀ k ∈ Finset.range (2 * c + 2 * r - 4),
      ([sedgeP r c k, ((pFun r c k).2, (pFun r c k).1 + r * c),
        ((pFun r c k).1, (pFun r c k).1 + r * c),
        ((pFun r c k).2, (pFun r c k).2 + r * c),
        shiftE (r * c) (sedgeP r c k),
        ((pFun r c k).2, (pFun r c k).1 + r * c)].count
          (shiftE (r * c) (eH c i0 j0)))
        = (if sedgeP r c k = eH c i0 j0 then 1 else 0) :=
    fun k hk => wall_count_shift hr hc (Finset.mem_range.mp hk) _
  rw [Finset.sum_congr rfl hw]
  have h := NT_eH hr hc hi hj
  omega

lemma total_shift_eV {r c i0 j0 : ℕ} (hr : 2 ≤ r) (hc : 2 ≤ c)
    (hi : i0 < r - 1) (hj : j0 < c) :
    countE (solidFaces r c) (shiftE (r * c) (eV c i0 j0)) = 2 := by
  rw [countE_solid, countE_side hr hc, countE_base_shift,
    countE_surface_zero hr hc _ (Or.inl (Nat.le_add_left _ _))]
  have hw : ∀ k ∈ Finset.range (2 * c + 2 * r - 4),
      ([sedgeP r c k, ((pFun r c k).2, (pFun r c k).1 + r * c),
        ((pFun r c k).1, (pFun r c k).1 + r * c),
        ((pFun r c k).2, (pFun r c k).2 + r * c),
        shiftE (r * c) (sedgeP r c k),
        ((pFun r c k).2, (pFun r c k).1 + r * c)].count
          (shiftE (r * c) (eV c i0 j0)))
        = (if sedgeP r c k = eV c i0 j0 then 1 else 0) :=
    fun k hk => wall_count_shift hr hc (Finset.mem_range.mp hk) _
  rw [Finset.sum_congr rfl hw]
  have h := NT_eV hr hc hi hj
  omega

lemma total_shift_eD {r c i0 j0 : ℕ} (hr : 2 ≤ r) (hc : 2 ≤ c)
    (hi : i0 < r - 1) (hj : j0 < c - 1) :
    countE (solidFaces r c) (shiftE (r * c) (eD c i0 j0)) = 2 := by
  rw [countE_solid, countE_side hr hc, countE_base_shift,
    countE_surface_zero hr hc _ (Or.inl (Nat.le_add_left _ _))]
  have hw : ∀ k ∈ Finset.range (2 * c + 2 * r - 4),
      ([sedgeP r c k, ((pFun r c k).2, (pFun r c k).1 + r * c),
        ((pFun r c k).1, (pFun r c k).1 + r * c),
        ((pFun r c k).2, (pFun r c k).2 + r * c),
        shiftE (r * c) (sedgeP r c k),
        ((pFun r c k).2, (pFun r c k).1 + r * c)].count
          (shiftE (r * c) (eD c i0 j0)))
        = (if sedgeP r c k = eD c i0 j0 then 1 else 0) :=
    fun k hk => wall_count_shift hr hc (Finset.mem_range.mp hk) _
  rw [Finset.sum_congr rfl hw]
  have h := NT_eD hr hc hi hj
  omega

lemma wall_count_vert {r c k : ℕ} (hr : 2 ≤ r) (hc : 2 ≤ c)
    (hk : k < 2 * c + 2 * r - 4) (v : ℕ) (hv : v < r * c) :
    ([sedgeP r c k, ((pFun r c k).2, (pFun r c k).1 + r * c),
      ((pFun r c k).1, (pFun r c k).1 + r * c),
      ((pFun r c k).2, (pFun r c k).2 + r * c),
      shiftE (r * c) (sedgeP r c k),
      ((pFun r c k).2, (pFun r c k).1 + r * c)].count (v, v + r * c))
      = (if bFun r c k = v then 1 else 0)
        + (if bFun r c ((k + 1) % (2 * c + 2 * r - 4)) = v then 1 else 0) := by
  rw [count_six]
  have hs := sedgeP_lt hr hc hk
  have hne := pFun_ne hr hc hk
  have h1 : ¬(sedgeP r c k = (v, v + r * c)) := by
    intro h
    rw [Prod.ext_iff] at h
    omega
  have h2 : ¬(((pFun r c k).2, (pFun r c k).1 + r * c) = (v, v + r * c)) := by
    intro h
    rw [Prod.ext_iff] at h
    apply hne
    omega
  have h5 : ¬(shiftE (r * c) (sedgeP r c k) = (v, v + r * c)) := by
    intro h
    unfold shiftE at h
    rw [Prod.ext_iff] at h
    omega
  have h3 : (((pFun r c k).1, (pFun r c k).1 + r * c) = (v, v + r * c))
      ↔ (pFun r c k).1 = v := by
    constructor
    · intro h
      rw [Prod.ext_iff] at h
      omega
    · intro h
      rw [h]
  have h4 : (((pFun r c k).2, (pFun r c k).2 + r * c) = (v, v + r * c))
      ↔ (pFun r c k).2 = v := by
    constructor
    · intro h
      rw [Prod.ext_iff] at h
      omega
    · intro h
      rw [h]
  rw [if_neg h1, if_neg h2, if_neg h5, if_congr h3 rfl rfl,
    if_congr h4 rfl rfl, pFun_fst, pFun_snd]
  omega

lemma total_vert {r c k0 : ℕ} (hr : 2 ≤ r) (hc : 2 ≤ c)
    (hk0 : k0 < 2 * c + 2 * r - 4) :
    countE (solidFaces r c) (bFun r c k0, bFun r c k0 + r * c) = 2 := by
  have hv : bFun r c k0 < r * c := bFun_lt_n hr hc hk0
  rw [countE_solid, countE_side hr hc,
    countE_surface_zero hr hc _ (Or.inr (Nat.le_add_left _ _)),
    countE_base_zero _ hv]
  have hw : ∀ k ∈ Finset.range (2 * c + 2 * r - 4),
      ([sedgeP r c k, ((pFun r c k).2, (pFun r c k).1 + r * c),
        ((pFun r c k).1, (pFun r c k).1 + r * c),
        ((pFun r c k).2, (pFun r c k).2 + r * c),
        shiftE (r * c) (sedgeP r c k),
        ((pFun r c k).2, (pFun r c k).1 + r * c)].count
          (bFun r c k0, bFun r c k0 + r * c))
        = (if bFun r c k = bFun r c k0 then 1 else 0)
          + (if bFun r c ((k + 1) % (2 * c + 2 * r - 4)) = bFun r c k0
              then 1 else 0) :=
    fun k hk => wall_count_vert hr hc (Finset.mem_range.mp hk) _ hv
  rw [Finset.sum_congr rfl hw, Finset.sum_add_distrib]
  have hA : ∑ k in Finset.range (2 * c + 2 * r - 4),
      (if bFun r c k = bFun r c k0 then 1 else 0) = 1 := by
    have hz : ∀ k, k < 2 * c + 2 * r - 4 → k ≠ k0 →
        (if bFun r c k = bFun r c k0 then 1 else 0) = 0 :=
      fun k hk hne => if_neg (fun hq => hne (bFun_inj hr hc hk hk0 hq))
    rw [sum1_single k0 hk0 hz]
    exact if_pos rfl
  have hB : ∑ k in Finset.range (2 * c + 2 * r - 4),
      (if bFun r c ((k + 1) % (2 * c + 2 * r - 4)) = bFun r c k0
        then 1 else 0) = 1 := by
    rw [sum_range_rotate (2 * c + 2 * r - 4) (by omega)
      (fun m => if bFun r c m = bFun r c k0 then 1 else 0)]
    have hz : ∀ k, k < 2 * c + 2 * r - 4 → k ≠ k0 →
        (if bFun r c k = bFun r c k0 then 1 else 0) = 0 :=
      fun k hk hne => if_neg (fun hq => hne (bFun_inj hr hc hk hk0 hq))
    rw [sum1_single k0 hk0 hz]
    exact if_pos rfl
  rw [hA, hB]
  omega

lemma wall_count_diag {r c k k0 : ℕ} (hr : 2 ≤ r) (hc : 2 ≤ c)
    (hk : k < 2 * c + 2 * r - 4) (hk0 : k0 < 2 * c + 2 * r - 4) :
    ([sedgeP r c k, ((pFun r c k).2, (pFun r c k).1 + r * c),
      ((pFun r c k).1, (pFun r c k).1 + r * c),
      ((pFun r c k).2, (pFun r c k).2 + r * c),
      shiftE (r * c) (sedgeP r c k),
      ((pFun r c k).2, (pFun r c k).1 + r * c)].count
        ((pFun r c k0).2, (pFun r c k0).1 + r * c))
      = (if k = k0 then 2 else 0) := by
  rw [count_six]
  have hs := sedgeP_lt hr hc hk
  have hne0 := pFun_ne hr hc hk0
  have hp1k0 : (pFun r c k0).1 < r * c := bFun_lt_n hr hc hk0
  have hp2k0 : (pFun r c k0).2 < r * c :=
    bFun_lt_n hr hc (Nat.mod_lt _ (by omega))
  have h1 : ¬(sedgeP r c k = ((pFun r c k0).2, (pFun r c k0).1 + r * c)) := by
    intro h
    rw [Prod.ext_iff] at h
    omega
  have h3 : ¬(((pFun r c k).1, (pFun r c k).1 + r * c)
      = ((pFun r c k0).2, (pFun r c k0).1 + r * c)) := by
    intro h
    rw [Prod.ext_iff] at h
    apply hne0
    omega
  have h4 : ¬(((pFun r c k).2, (pFun r c k).2 + r * c)
      = ((pFun r c k0).2, (pFun r c k0).1 + r * c)) := by
    intro h
    rw [Prod.ext_iff] at h
    apply hne0
    omega
  have h5 : ¬(shiftE (r * c) (sedgeP r c k)
      = ((pFun r c k0).2, (pFun r c k0).1 + r * c)) := by
    intro h
    unfold shiftE at h
    rw [Prod.ext_iff] at h
    omega
  have h2 : (((pFun r c k).2, (pFun r c k).1 + r * c)
      = ((pFun r c k0).2, (pFun r c k0).1 + r * c)) ↔ k = k0 := by
    constructor
    · intro h
      rw [Prod.ext_iff] at h
      have hq : (pFun r c k).1 = (pFun r c k0).1 := by omega
      exact bFun_inj hr hc hk hk0 hq
    · intro h
      rw [h]
  rw [if_neg h1, if_neg h3, if_neg h4, if_neg h5, if_congr h2 rfl rfl]
  split_ifs <;> omega

lemma total_diag {r c k0 : ℕ} (hr : 2 ≤ r) (hc : 2 ≤ c)
    (hk0 : k0 < 2 * c + 2 * r - 4) :
    countE (solidFaces r c) ((pFun r c k0).2, (pFun r c k0).1 + r * c) = 2 := by
  have hp2 : (pFun r c k0).2 < r * c :=
    bFun_lt_n hr hc (Nat.mod_lt _ (by omega))
  rw [countE_solid, countE_side hr hc,
    countE_surface_zero hr hc _ (Or.inr (Nat.le_add_left _ _)),
    countE_base_zero _ hp2]
  have hw : ∀ k ∈ Finset.range (2 * c + 2 * r - 4),
      ([sedgeP r c k, ((pFun r c k).2, (pFun r c k).1 + r * c),
        ((pFun r c k).1, (pFun r c k).1 + r * c),
        ((pFun r c k).2, (pFun r c k).2 + r * c),
        shiftE (r * c) (sedgeP r c k),
        ((pFun r c k).2, (pFun r c k).1 + r * c)].count
          ((pFun r c k0).2, (pFun r c k0).1 + r * c))
        = (if k = k0 then 2 else 0) :=
    fun k hk => wall_count_diag hr hc (Finset.mem_range.mp hk) hk0
  rw [Finset.sum_congr rfl hw,
    sum1_single k0 hk0 (fun k _ hne => if_neg hne), if_pos rfl]

/-! Assembling the watertightness theorem. -/

lemma total_sedgeP {r c k : ℕ} (hr : 2 ≤ r) (hc : 2 ≤ c)
    (hk : k < 2 * c + 2 * r - 4) :
    countE (solidFaces r c) (sedgeP r c k) = 2 := by
  by_cases h1 : k < c - 1
  · rw [sedgeP_r1 hr hc h1]
    exact total_eH hr hc (by omega) h1
  · by_cases h2 : k < c - 1 + (r - 1)
    · rw [show k = c - 1 + (k - (c - 1)) from by omega,
        sedgeP_r2 hr hc (by omega)]
      exact total_eV hr hc (by omega) (by omega)
    · by_cases h3 : k < c - 1 + (r - 1) + (c - 1)
      · rw [show k = c - 1 + (r - 1) + (k - (c - 1 + (r - 1))) from by omega,
          sedgeP_r3 hr hc (by omega)]
        exact total_eH hr hc (by omega) (by omega)
      · rw [show k = c - 1 + (r - 1) + (c - 1) + (k - (c - 1 + (r - 1) + (c - 1)))
          from by omega, sedgeP_r4 hr hc (by omega)]
        exact total_eV hr hc (by omega) (by omega)

lemma total_sedgeP_shift {r c k : ℕ} (hr : 2 ≤ r) (hc : 2 ≤ c)
    (hk : k < 2 * c + 2 * r - 4) :
    countE (solidFaces r c) (shiftE (r * c) (sedgeP r c k)) = 2 := by
  by_cases h1 : k < c - 1
  · rw [sedgeP_r1 hr hc h1]
    exact total_shift_eH hr hc (by omega) h1
  · by_cases h2 : k < c - 1 + (r - 1)
    · rw [show k = c - 1 + (k - (c - 1)) from by omega,
        sedgeP_r2 hr hc (by omega)]
      exact total_shift_eV hr hc (by omega) (by omega)
    · by_cases h3 : k < c - 1 + (r - 1) + (c - 1)
      · rw [show k = c - 1 + (r - 1) + (k - (c - 1 + (r - 1))) from by omega,
          sedgeP_r3 hr hc (by omega)]
        exact total_shift_eH hr hc (by omega) (by omega)
      · rw [show k = c - 1 + (r - 1) + (c - 1) + (k - (c - 1 + (r - 1) + (c - 1)))
          from by omega, sedgeP_r4 hr hc (by omega)]
        exact total_shift_eV hr hc (by omega) (by omega)

lemma mem_side_edges {r c : ℕ} (hr : 2 ≤ r) (hc : 2 ≤ c) {e : ℕ × ℕ}
    (h : e ∈ (sideFaces (r * c) (boundaryIndices r c)).flatMap edgesOf) :
    ∃ k, k < 2 * c + 2 * r - 4 ∧
      (e = sedgeP r c k
        ∨ e = ((pFun r c k).2, (pFun r c k).1 + r * c)
        ∨ e = ((pFun r c k).1, (pFun r c k).1 + r * c)
        ∨ e = ((pFun r c k).2, (pFun r c k).2 + r * c)
        ∨ e = shiftE (r * c) (sedgeP r c k)) := by
  rw [sideFaces_eq hr hc, List.flatMap_assoc, List.mem_flatMap] at h
  obtain ⟨k, hk, h⟩ := h
  rw [List.mem_range] at hk
  have hmod : (k + 1) % (2 * c + 2 * r - 4) < 2 * c + 2 * r - 4 :=
    Nat.mod_lt _ (by omega)
  rw [wallQuad_edges (pFun r c k) (bFun_lt_n hr hc hk)
    (bFun_lt_n hr hc hmod)] at h
  refine ⟨k, hk, ?_⟩
  have hsp : sedge (pFun r c k).1 (pFun r c k).2 = sedgeP r c k := rfl
  rw [hsp] at h
  simp only [List.mem_cons, List.not_mem_nil, or_false] at h
  tauto

lemma mem_base_edges {r c : ℕ} {e : ℕ × ℕ}
    (h : e ∈ ((surfaceFaces r c).map
      fun f => (f.1 + r * c, f.2.2 + r * c, f.2.1 + r * c)).flatMap edgesOf) :
    ∃ d, d ∈ (surfaceFaces r c).flatMap edgesOf ∧ e = shiftE (r * c) d := by
  rw [List.mem_flatMap] at h
  obtain ⟨F', hF', he⟩ := h
  rw [List.mem_map] at hF'
  obtain ⟨F, hF, rfl⟩ := hF'
  rw [baseFace_edges] at he
  simp only [List.mem_cons, List.not_mem_nil, or_false] at he
  rcases he with he | he | he
  · exact ⟨sedge F.1 F.2.2, List.mem_flatMap.mpr ⟨F, hF, by unfold edgesOf; simp⟩,
      he⟩
  · exact ⟨sedge F.2.1 F.2.2,
      List.mem_flatMap.mpr ⟨F, hF, by unfold edgesOf; simp⟩, he⟩
  · exact ⟨sedge F.1 F.2.1,
      List.mem_flatMap.mpr ⟨F, hF, by unfold edgesOf; simp⟩, he⟩

lemma surface_face_mem {r c : ℕ} {F : Face} (h : F ∈ surfaceFaces r c) :
    ∃ i j, i < r - 1 ∧ j < c - 1 ∧
      (F = (i * c + j, i * c + (j + 1), (i + 1) * c + j)
        ∨ F = (i * c + (j + 1), (i + 1) * c + (j + 1), (i + 1) * c + j)) := by
  unfold surfaceFaces at h
  rw [List.mem_flatMap] at h
  obtain ⟨i, hi, h⟩ := h
  rw [List.mem_range] at hi
  rw [List.mem_flatMap] at h
  obtain ⟨j, hj, h⟩ := h
  rw [List.mem_range] at hj
  simp only [List.mem_cons, List.not_mem_nil, or_false] at h
  exact ⟨i, j, hi, hj, h⟩

lemma solid_face_distinct {r c : ℕ} (hr : 2 ≤ r) (hc : 2 ≤ c) {F : Face}
    (h : F ∈ solidFaces r c) :
    F.1 ≠ F.2.1 ∧ F.2.1 ≠ F.2.2 ∧ F.1 ≠ F.2.2 := by
  unfold solidFaces at h
  rw [List.mem_append, List.mem_append] at h
  rcases h with (h | h) | h
  · obtain ⟨i, j, hi, hj, hF⟩ := surface_face_mem h
    have hmul := succ_mul_c i c
    rcases hF with rfl | rfl <;> refine ⟨?_, ?_, ?_⟩ <;> dsimp only <;> omega
  · rw [sideFaces_eq hr hc, List.mem_flatMap] at h
    obtain ⟨k, hk, h⟩ := h
    rw [List.mem_range] at hk
    have hp1 : (pFun r c k).1 < r * c := bFun_lt_n hr hc hk
    have hp2 : (pFun r c k).2 < r * c := bFun_lt_n hr hc (Nat.mod_lt _ (by omega))
    have hne := pFun_ne hr hc hk
    unfold wallQuad at h
    simp only [List.mem_cons, List.not_mem_nil, or_false] at h
    rcases h with rfl | rfl <;> refine ⟨?_, ?_, ?_⟩ <;> dsimp only <;> omega
  · rw [List.mem_map] at h
    obtain ⟨G, hG, rfl⟩ := h
    obtain ⟨i, j, hi, hj, hF⟩ := surface_face_mem hG
    have hmul := succ_mul_c i c
    rcases hF with rfl | rfl <;> refine ⟨?_, ?_, ?_⟩ <;> dsimp only <;> omega

lemma sedge_eq_iff {a b a' b' : ℕ} :
    sedge a b = sedge a' b' ↔ (a = a' ∧ b = b') ∨ (a = b' ∧ b = a') := by
  unfold sedge
  split_ifs <;> rw [Prod.mk.injEq] <;> omega

lemma count_edgesOf_le_one {F : Face} (h12 : F.1 ≠ F.2.1) (h23 : F.2.1 ≠ F.2.2)
    (h13 : F.1 ≠ F.2.2) (e : ℕ × ℕ) : (edgesOf F).count e ≤ 1 := by
  have hne1 : sedge F.1 F.2.1 ≠ sedge F.2.1 F.2.2 := by
    rw [Ne, sedge_eq_iff]
    omega
  have hne2 : sedge F.1 F.2.1 ≠ sedge F.1 F.2.2 := by
    rw [Ne, sedge_eq_iff]
    omega
  have hne3 : sedge F.2.1 F.2.2 ≠ sedge F.1 F.2.2 := by
    rw [Ne, sedge_eq_iff]
    omega
  unfold edgesOf
  simp only [List.count_cons, List.count_nil, beq_iff_eq]
  by_cases e1 : sedge F.1 F.2.1 = e
  · rw [if_pos e1,
      if_neg (show ¬(sedge F.2.1 F.2.2 = e) from
        fun h => hne1 (e1.trans h.symm)),
      if_neg (show ¬(sedge F.1 F.2.2 = e) from
        fun h => hne2 (e1.trans h.symm))]
  · rw [if_neg e1]
    by_cases e2 : sedge F.2.1 F.2.2 = e
    · rw [if_pos e2,
        if_neg (show ¬(sedge F.1 F.2.2 = e) from
          fun h => hne3 (e2.trans h.symm))]
    · rw [if_neg e2]
      split_ifs <;> omega

lemma countP_eq_countE (l : List Face) (e : ℕ × ℕ)
    (hle : ∀ F ∈ l, (edgesOf F).count e ≤ 1) :
    (l.countP fun T => decide (e ∈ edgesOf T)) = countE l e := by
  induction l with
  | nil => rfl
  | cons F t ih =>
    unfold countE at ih ⊢
    rw [List.flatMap_cons, List.count_append, List.countP_cons,
      ih (fun G hG => hle G (List.mem_cons_of_mem F hG))]
    by_cases hmem : e ∈ edgesOf F
    · have h1 : (edgesOf F).count e = 1 :=
        Nat.le_antisymm (hle F (List.mem_cons_self F t))
          (List.count_pos_iff.mpr hmem)
      rw [h1, if_pos (decide_eq_true hmem)]
      omega
    · have h1 : (edgesOf F).count e = 0 := List.count_eq_zero.mpr hmem
      rw [h1, if_neg (fun hq => hmem (of_decide_eq_true hq))]
      omega

lemma solid_edge_count {r c : ℕ} (hr : 2 ≤ r) (hc : 2 ≤ c) {e : ℕ × ℕ}
    (he : e ∈ (solidFaces r c).flatMap edgesOf) :
    countE (solidFaces r c) e = 2 := by
  unfold solidFaces at he
  rw [List.flatMap_append, List.flatMap_append, List.mem_append,
    List.mem_append] at he
  rcases he with (he | he) | he
  · obtain ⟨i, j, hi, hj, hcase⟩ := mem_surface_edges hc he
    rcases hcase with rfl | rfl | rfl | rfl | rfl
    · exact total_eH hr hc (by omega) hj
    · exact total_eD hr hc hi hj
    · exact total_eV hr hc hi (by omega)
    · exact total_eV hr hc hi (by omega)
    · exact total_eH hr hc (by omega) hj
  · obtain ⟨k, hk, hcase⟩ := mem_side_edges hr hc he
    rcases hcase with rfl | rfl | rfl | rfl | rfl
    · exact total_sedgeP hr hc hk
    · exact total_diag hr hc hk
    · exact total_vert hr hc hk
    · exact total_vert hr hc (Nat.mod_lt _ (by omega))
    · exact total_sedgeP_shift hr hc hk
  · obtain ⟨d, hd, rfl⟩ := mem_base_edges he
    obtain ⟨i, j, hi, hj, hcase⟩ := mem_surface_edges hc hd
    rcases hcase with rfl | rfl | rfl | rfl | rfl
    · exact total_shift_eH hr hc (by omega) hj
    · exact total_shift_eD hr hc hi hj
    · exact total_shift_eV hr hc hi (by omega)
    · exact total_shift_eV hr hc hi (by omega)
    · exact total_shift_eH hr hc (by omega) hj

lemma addBase_surface_eq (r c : ℕ) (x y z : ℕ → ℕ → ℚ) :
    (addBase (surfaceVertices r c x y z) (surfaceFaces r c) r c).2
      = solidFaces r c := by
  simp only [addBase, solidFaces, surfaceVertices_length]

lemma boundaryIndices_nodup {r c : ℕ} (hr : 2 ≤ r) (hc : 2 ≤ c) :
    (boundaryIndices r c).Nodup := by
  rw [List.nodup_iff_injective_get]
  intro a b hab
  have hlen := @boundaryIndices_length r c hr
  have ha := boundaryIndices_getD hr hc (show a.1 < 2 * c + 2 * r - 4
    from hlen ▸ a.isLt)
  have hb := boundaryIndices_getD hr hc (show b.1 < 2 * c + 2 * r - 4
    from hlen ▸ b.isLt)
  rw [List.getD_eq_getElem _ _ a.isLt] at ha
  rw [List.getD_eq_getElem _ _ b.isLt] at hb
  apply Fin.ext
  apply bFun_inj hr hc (hlen ▸ a.isLt) (hlen ▸ b.isLt)
  rw [← ha, ← hb]
  simpa [List.get_eq_getElem] using hab

lemma boundary_mem {r c i j : ℕ} (hr : 2 ≤ r) (hc : 2 ≤ c) (hi : i < r)
    (hj : j < c) (hb : i = 0 ∨ i = r - 1 ∨ j = 0 ∨ j = c - 1) :
    i * c + j ∈ boundaryIndices r c := by
  have hmem : ∀ k, k < 2 * c + 2 * r - 4 →
      (boundaryIndices r c).getD k 0 = i * c + j →
      i * c + j ∈ boundaryIndices r c := by
    intro k hk heq
    have hlen := @boundaryIndices_length r c hr
    rw [List.getD_eq_getElem _ _ (by omega)] at heq
    rw [← heq]
    exact List.getElem_mem _
  rcases hb with rfl | rfl | rfl | rfl
  · exact hmem j (by omega)
      (by rw [boundaryIndices_getD hr hc (by omega), bFun_low hj]; omega)
  · exact hmem (c + r - 2 + (c - 1 - j)) (by omega)
      (by rw [boundaryIndices_getD hr hc (by omega),
            bFun_bottom (by omega) (by omega)]
          rw [show 2 * c + r - 3 - (c + r - 2 + (c - 1 - j)) = j from by omega])
  · by_cases h0 : i = 0
    · exact hmem 0 (by omega)
        (by rw [h0, boundaryIndices_getD hr hc (by omega),
              bFun_low (by omega)]
            omega)
    · by_cases hlast : i = r - 1
      · exact hmem (c + r - 2 + (c - 1)) (by omega)
          (by rw [hlast, boundaryIndices_getD hr hc (by omega),
                bFun_bottom (by omega) (by omega)]
              omega)
      · exact hmem (2 * c + 2 * r - 4 - i) (by omega)
          (by rw [boundaryIndices_getD hr hc (by omega), bFun_left (by omega)]
              rw [show 2 * c + 2 * r - 4 - (2 * c + 2 * r - 4 - i) = i
                from by omega]
              omega)
  · by_cases h0 : i = 0
    · exact hmem (c - 1) (by omega)
        (by rw [h0, boundaryIndices_getD hr hc (by omega),
              bFun_low (by omega)]
            omega)
    · by_cases hlast : i = r - 1
      · exact hmem (c + r - 2) (by omega)
          (by rw [hlast, boundaryIndices_getD hr hc (by omega),
                bFun_bottom (by omega) (by omega)]
              omega)
      · exact hmem (c - 1 + i) (by omega)
          (by rw [boundaryIndices_getD hr hc (by omega),
                bFun_right (by omega) (by omega)]
              rw [show c - 1 + i - c + 1 = i from by omega])

/-- **C1.** For every grid with `rows, cols ≥ 2`, the solid assembled by
`_add_base` — terrain surface, floor copy, perimeter walls over the ordered
boundary loop, reversed-winding floor faces — is watertight: every
undirected edge of its face list borders exactly two faces; moreover the
ordered boundary walk of `_get_ordered_boundary_indices` visits every
boundary vertex exactly once (it has no duplicates and covers every
boundary cell of the grid). This holds for the raw `_add_base` output,
before any repair step. -/
theorem solid_watertight (rows cols : ℕ) (x y z : ℕ → ℕ → ℚ)
    (hr : 2 ≤ rows) (hc : 2 ≤ cols) :
    (∀ e ∈ ((addBase (surfaceVertices rows cols x y z)
        (surfaceFaces rows cols) rows cols).2.flatMap edgesOf),
      ((addBase (surfaceVertices rows cols x y z)
        (surfaceFaces rows cols) rows cols).2.countP
          fun T => decide (e ∈ edgesOf T)) = 2)
    ∧ (boundaryIndices rows cols).Nodup
    ∧ (∀ i j, i < rows → j < cols →
        (i = 0 ∨ i = rows - 1 ∨ j = 0 ∨ j = cols - 1) →
        i * cols + j ∈ boundaryIndices rows cols) := by
  rw [addBase_surface_eq]
  refine ⟨?_, boundaryIndices_nodup hr hc,
    fun i j hi hj hb => boundary_mem hr hc hi hj hb⟩
  intro e he
  rw [countP_eq_countE _ _ (fun F hF =>
    count_edgesOf_le_one (solid_face_distinct hr hc hF).1
      (solid_face_distinct hr hc hF).2.1
      (solid_face_distinct hr hc hF).2.2 e)]
  exact solid_edge_count hr hc he

/-- **C1 witness.** The watertightness theorem instantiated on the concrete
2×2 grid with zero coordinates. -/
theorem solid_watertight_witness :
    2 ≤ 2 ∧
    ((∀ e ∈ ((addBase (surfaceVertices 2 2 (fun _ _ => 0) (fun _ _ => 0)
        (fun _ _ => 0)) (surfaceFaces 2 2) 2 2).2.flatMap edgesOf),
      ((addBase (surfaceVertices 2 2 (fun _ _ => 0) (fun _ _ => 0)
        (fun _ _ => 0)) (surfaceFaces 2 2) 2 2).2.countP
          fun T => decide (e ∈ edgesOf T)) = 2)
    ∧ (boundaryIndices 2 2).Nodup
    ∧ (∀ i j, i < 2 → j < 2 →
        (i = 0 ∨ i = 2 - 1 ∨ j = 0 ∨ j = 2 - 1) →
        i * 2 + j ∈ boundaryIndices 2 2)) :=
  ⟨by decide, solid_watertight 2 2 (fun _ _ => 0) (fun _ _ => 0)
    (fun _ _ => 0) (by decide) (by decide)⟩
